import Mathlib

/-!
# PULP DSP kernels: strided 8-bit matrix addition, 16-bit minimum, dispatch glue

Shallow embedding of

* `src/MatrixFunctionsStride/mat_add_stride/kernels/plp_mat_add_stride_i8s_xpulpv2.c`
* `src/StatisticsFunctions/kernels/plp_min_i16s_xpulpv2.c`
* `src/BasicMathFunctions/plp_dot_prod_q32s.c`
* `src/MatrixFunctionsStride/mat_mult_trans_cmplx_stride/plp_mat_mult_trans_cmplx_stride_q8.c`

Conventions.

* A buffer is a function from element offsets to values (`Nat → Int`); a pointer into a
  buffer is the element offset from the pointer the caller passed in.
* The target is a 32-bit core: `uint32_t` arithmetic and addresses wrap modulo `2^32`,
  which is written out explicitly (`u32`, `ptrAdd`).
* `int8_t` values are integers; the result of an 8-bit addition is reduced by `wrap8`.
* A `for` loop whose counter runs from `0` to a bound fixed before the loop and whose body
  does not use the counter is `body^[bound]`; when the body uses the counter it is `forLoop`.
* A preprocessor switch (`BASIC_VERSION`, `PLP_MATH_LOOPUNROLL`) is a `Bool` argument.
-/

namespace PulpDsp

/-! ## Machine arithmetic -/

/-- Reduction of a natural number to `uint32_t`. -/
def u32 (x : Nat) : Nat := x % 2 ^ 32

/-- The `uint32_t` difference `a - b` (wrapping). -/
def u32_sub (a b : Nat) : Nat := (u32 a + (2 ^ 32 - u32 b)) % 2 ^ 32

/-- Pointer plus element offset on the 32-bit core (byte-sized elements). -/
def ptrAdd (p k : Nat) : Nat := (p + k) % 2 ^ 32

/-- Conversion of an integer to `int8_t` (two's complement, no saturation). -/
def wrap8 (x : Int) : Int := (x + 128) % 256 - 128

/-- A counted loop `for (i = 0; i < bound; i++) body(i)`, started at counter `i`
with `fuel = bound - i` iterations left. -/
def forLoopFrom {σ : Type} (body : Nat → σ → σ) : Nat → Nat → σ → σ
  | 0, _, s => s
  | fuel + 1, i, s => forLoopFrom body fuel (i + 1) (body i s)

/-- The loop `for (i = 0; i < bound; i++) body(i)`. -/
def forLoop {σ : Type} (bound : Nat) (body : Nat → σ → σ) (s : σ) : σ :=
  forLoopFrom body bound 0 s

/-! ## `plp_mat_add_stride_i8s_xpulpv2` -/

/-- Modelled from the spec: the type `v4s` is declared in `plp_math.h`, which is not part of
the sources; section 4.2 describes it as a 4-lane vector of elements. Lane `k` is the
`int8_t` at byte offset `k`. -/
structure v4s where
  b0 : Int
  b1 : Int
  b2 : Int
  b3 : Int

/-- Modelled from the spec: the macro `__ADD4` comes from `plp_math.h`, which is not part of
the sources; section 4.2 describes it as a single packed-add instruction over a 4-lane
vector whose lanes follow the fixed-width arithmetic of the element type (no widening). -/
def __ADD4 (a b : v4s) : v4s :=
  ⟨wrap8 (a.b0 + b.b0), wrap8 (a.b1 + b.b1), wrap8 (a.b2 + b.b2), wrap8 (a.b3 + b.b3)⟩

/-- The load `*((v4s *)p)`. -/
def load_v4s (mem : Nat → Int) (p : Nat) : v4s :=
  ⟨mem p, mem (ptrAdd p 1), mem (ptrAdd p 2), mem (ptrAdd p 3)⟩

/-- The store `*((v4s *)p) = v`. -/
def store_v4s (mem : Nat → Int) (p : Nat) (v : v4s) : Nat → Int :=
  Function.update (Function.update (Function.update (Function.update mem p v.b0)
    (ptrAdd p 1) v.b1) (ptrAdd p 2) v.b2) (ptrAdd p 3) v.b3

/-- Local state of the optimised body: the six running pointers and the output buffer. -/
structure MatAddState where
  pSrcA : Nat
  pSrcB : Nat
  pDst : Nat
  pSrcA2 : Nat
  pSrcB2 : Nat
  pDst2 : Nat
  dst : Nat → Int

/-- Lines 95-106: one packed step on a pair of rows. -/
def pair_v4s_body (srcA srcB : Nat → Int) (s : MatAddState) : MatAddState :=
  let a1 := load_v4s srcA s.pSrcA
  let b1 := load_v4s srcB s.pSrcB
  let a2 := load_v4s srcA s.pSrcA2
  let b2 := load_v4s srcB s.pSrcB2
  let d1 := store_v4s s.dst s.pDst (__ADD4 a1 b1)
  let d2 := store_v4s d1 s.pDst2 (__ADD4 a2 b2)
  { pSrcA := ptrAdd s.pSrcA 4, pSrcB := ptrAdd s.pSrcB 4, pDst := ptrAdd s.pDst 4,
    pSrcA2 := ptrAdd s.pSrcA2 4, pSrcB2 := ptrAdd s.pSrcB2 4, pDst2 := ptrAdd s.pDst2 4,
    dst := d2 }

/-- Lines 109-110: one scalar step on a pair of rows. -/
def pair_rem_body (srcA srcB : Nat → Int) (s : MatAddState) : MatAddState :=
  let d1 := Function.update s.dst s.pDst (wrap8 (srcA s.pSrcA + srcB s.pSrcB))
  let d2 := Function.update d1 s.pDst2 (wrap8 (srcA s.pSrcA2 + srcB s.pSrcB2))
  { pSrcA := ptrAdd s.pSrcA 1, pSrcB := ptrAdd s.pSrcB 1, pDst := ptrAdd s.pDst 1,
    pSrcA2 := ptrAdd s.pSrcA2 1, pSrcB2 := ptrAdd s.pSrcB2 1, pDst2 := ptrAdd s.pDst2 1,
    dst := d2 }

/-- Lines 112-117: stride compensation after a pair of rows. -/
def pair_step (step_a step_b step_y : Nat) (s : MatAddState) : MatAddState :=
  { pSrcA := ptrAdd s.pSrcA step_a, pSrcB := ptrAdd s.pSrcB step_b,
    pDst := ptrAdd s.pDst step_y,
    pSrcA2 := ptrAdd s.pSrcA2 step_a, pSrcB2 := ptrAdd s.pSrcB2 step_b,
    pDst2 := ptrAdd s.pDst2 step_y,
    dst := s.dst }

/-- Lines 94-117: the body of the row-pair loop. -/
def pair_body (srcA srcB : Nat → Int) (n_iter n_rem step_a step_b step_y : Nat)
    (s : MatAddState) : MatAddState :=
  pair_step step_a step_b step_y
    ((pair_rem_body srcA srcB)^[n_rem] ((pair_v4s_body srcA srcB)^[n_iter] s))

/-- Lines 122-127: one packed step of the tail row. -/
def tail_v4s_body (srcA srcB : Nat → Int) (s : MatAddState) : MatAddState :=
  let a := load_v4s srcA s.pSrcA
  let b := load_v4s srcB s.pSrcB
  { s with pSrcA := ptrAdd s.pSrcA 4, pSrcB := ptrAdd s.pSrcB 4, pDst := ptrAdd s.pDst 4,
           dst := store_v4s s.dst s.pDst (__ADD4 a b) }

/-- Line 130: one scalar step of the tail row. -/
def tail_rem_body (srcA srcB : Nat → Int) (s : MatAddState) : MatAddState :=
  { s with pSrcA := ptrAdd s.pSrcA 1, pSrcB := ptrAdd s.pSrcB 1, pDst := ptrAdd s.pDst 1,
           dst := Function.update s.dst s.pDst (wrap8 (srcA s.pSrcA + srcB s.pSrcB)) }

/-- Lines 132-134: stride compensation after the tail row. -/
def tail_step (step_a step_b step_y : Nat) (s : MatAddState) : MatAddState :=
  { s with pSrcA := ptrAdd s.pSrcA step_a, pSrcB := ptrAdd s.pSrcB step_b,
           pDst := ptrAdd s.pDst step_y }

/-- Lines 121-134: the tail pass for an odd number of rows. -/
def tail_body (srcA srcB : Nat → Int) (n_iter n_rem step_a step_b step_y : Nat)
    (s : MatAddState) : MatAddState :=
  tail_step step_a step_b step_y
    ((tail_rem_body srcA srcB)^[n_rem] ((tail_v4s_body srcA srcB)^[n_iter] s))

/-- Lines 77-135: the optimised body, returning its final local state. -/
def mat_add_optimised (srcA srcB : Nat → Int) (M N strideA strideB strideY : Nat)
    (dst : Nat → Int) : MatAddState :=
  let s0 : MatAddState :=
    { pSrcA := 0, pSrcB := 0, pDst := 0,
      pSrcA2 := ptrAdd 0 strideA, pSrcB2 := ptrAdd 0 strideB, pDst2 := ptrAdd 0 strideY,
      dst := dst }
  let m_iter := M >>> 1
  let m_rem := M &&& 1
  let n_iter := N >>> 2
  let n_rem := N &&& 3
  let step_a := u32_sub (strideA * 2) N
  let step_b := u32_sub (strideB * 2) N
  let step_y := u32_sub (strideY * 2) N
  let s1 := (pair_body srcA srcB n_iter n_rem step_a step_b step_y)^[m_iter] s0
  if m_rem ≠ 0 then tail_body srcA srcB n_iter n_rem step_a step_b step_y s1 else s1

/-- Lines 67-73: the `BASIC_VERSION` body. -/
def mat_add_basic (srcA srcB : Nat → Int) (M N strideA strideB strideY : Nat)
    (dst : Nat → Int) : Nat → Int :=
  forLoop M (fun m d =>
    forLoop N (fun n d =>
      Function.update d (u32 (m * strideY + n))
        (wrap8 (srcA (u32 (m * strideA + n)) + srcB (u32 (m * strideB + n))))) d) dst

/-- The kernel `plp_mat_add_stride_i8s_xpulpv2`: the output buffer after the call. -/
def plp_mat_add_stride_i8s_xpulpv2 (BASIC_VERSION : Bool) (pSrcA pSrcB : Nat → Int)
    (M N strideA strideB strideY : Nat) (pDst : Nat → Int) : Nat → Int :=
  if BASIC_VERSION then mat_add_basic pSrcA pSrcB M N strideA strideB strideY pDst
  else (mat_add_optimised pSrcA pSrcB M N strideA strideB strideY pDst).dst

/-- A buffer holding the listed values from offset 0 on (0 elsewhere). -/
def buf (l : List Int) : Nat → Int := fun i => l.getD i 0

/-! ## `plp_min_i16s_xpulpv2` -/

/-- Local state of the reduction: the read pointer (element offset) and the running minimum. -/
structure MinState where
  pSrc : Nat
  min : Int

/-- Lines 84-94: one step of the two-at-a-time loop. -/
def min_unroll_body (src : Nat → Int) (s : MinState) : MinState :=
  let x1 := src s.pSrc
  let x2 := src (s.pSrc + 1)
  { pSrc := s.pSrc + 2,
    min := if x1 < s.min then (if x2 < x1 then x2 else x1)
           else if x2 < s.min then x2 else s.min }

/-- Lines 98-101 and 107-110: read one element and update the minimum. -/
def min_single_body (src : Nat → Int) (s : MinState) : MinState :=
  let x1 := src s.pSrc
  { pSrc := s.pSrc + 1, min := if x1 < s.min then x1 else s.min }

/-- Lines 77-113: the final local state of the kernel. -/
def min_final_state (PLP_MATH_LOOPUNROLL : Bool) (src : Nat → Int) (blockSize : Nat) :
    MinState :=
  let s0 : MinState := { pSrc := 0, min := 0x7FFF }
  if PLP_MATH_LOOPUNROLL then
    let s1 := (min_unroll_body src)^[blockSize >>> 1] s0
    if blockSize % 2 = 1 then min_single_body src s1 else s1
  else
    (min_single_body src)^[blockSize] s0

/-- The kernel `plp_min_i16s_xpulpv2`: the value stored to `*pRes`. -/
def plp_min_i16s_xpulpv2 (PLP_MATH_LOOPUNROLL : Bool) (pSrc : Nat → Int) (blockSize : Nat) :
    Int :=
  (min_final_state PLP_MATH_LOOPUNROLL pSrc blockSize).min

/-- The update of the running minimum by one element `x`. -/
def minStep (m x : Int) : Int := if x < m then x else m

/-! ## Dispatch glue

The glue functions call three externals that are not part of the sources: the capability
query `rt_cluster_id()`, the constant `ARCHI_FC_CID` and the two kernels. They are
parameters of the embedding. `σ` is the state of the machine; the query and the kernels
may change it, the glue passes it on. Pointers and sizes are natural numbers. -/

/-- The function `plp_dot_prod_q32s`, lines 59-64. -/
def plp_dot_prod_q32s {σ : Type} (rt_cluster_id : σ → Int × σ) (ARCHI_FC_CID : Int)
    (plp_dot_prod_q32s_rv32im plp_dot_prod_q32s_xpulpv2 :
      Nat → Nat → Nat → Nat → Nat → σ → σ)
    (pSrcA pSrcB blockSize deciPoint pRes : Nat) (s : σ) : σ :=
  let r := rt_cluster_id s
  if r.1 = ARCHI_FC_CID then
    plp_dot_prod_q32s_rv32im pSrcA pSrcB blockSize deciPoint pRes r.2
  else
    plp_dot_prod_q32s_xpulpv2 pSrcA pSrcB blockSize deciPoint pRes r.2

/-- The function `plp_mat_mult_trans_cmplx_stride_q8`, lines 78-84. -/
def plp_mat_mult_trans_cmplx_stride_q8 {σ : Type} (rt_cluster_id : σ → Int × σ)
    (ARCHI_FC_CID : Int)
    (plp_mat_mult_trans_cmplx_stride_q8s_rv32im plp_mat_mult_trans_cmplx_stride_q8s_xpulpv2 :
      Nat → Nat → Nat → Nat → Nat → Nat → Nat → Nat → Nat → Nat → σ → σ)
    (pSrcA pSrcB M N O strideA strideB strideC shift pDstC : Nat) (s : σ) : σ :=
  let r := rt_cluster_id s
  if r.1 = ARCHI_FC_CID then
    plp_mat_mult_trans_cmplx_stride_q8s_rv32im pSrcA pSrcB M N O strideA strideB strideC
      shift pDstC r.2
  else
    plp_mat_mult_trans_cmplx_stride_q8s_xpulpv2 pSrcA pSrcB M N O strideA strideB strideC
      shift pDstC r.2

/-- What an instrumented run records: a capability query, or a call of one of the two
kernels together with the arguments it received, in order. -/
inductive GlueEvent where
  | query : GlueEvent
  | rv32im : List Nat → GlueEvent
  | xpulpv2 : List Nat → GlueEvent
  deriving DecidableEq

/-- State of an instrumented run: the identity of the calling core and the events so far. -/
structure Probe where
  cid : Int
  trace : List GlueEvent

/-- Instrumented `rt_cluster_id`: records the query and returns the core identity. -/
def probe_cluster_id (w : Probe) : Int × Probe :=
  (w.cid, { w with trace := w.trace ++ [GlueEvent.query] })

/-- Instrumented stub for a scalar-core kernel with five arguments. -/
def probe_rv32im5 (a b c d e : Nat) (w : Probe) : Probe :=
  { w with trace := w.trace ++ [GlueEvent.rv32im [a, b, c, d, e]] }

/-- Instrumented stub for a SIMD-cluster kernel with five arguments. -/
def probe_xpulpv25 (a b c d e : Nat) (w : Probe) : Probe :=
  { w with trace := w.trace ++ [GlueEvent.xpulpv2 [a, b, c, d, e]] }

/-- Instrumented stub for a scalar-core kernel with ten arguments. -/
def probe_rv32im10 (a b c d e f g h i j : Nat) (w : Probe) : Probe :=
  { w with trace := w.trace ++ [GlueEvent.rv32im [a, b, c, d, e, f, g, h, i, j]] }

/-- Instrumented stub for a SIMD-cluster kernel with ten arguments. -/
def probe_xpulpv210 (a b c d e f g h i j : Nat) (w : Probe) : Probe :=
  { w with trace := w.trace ++ [GlueEvent.xpulpv2 [a, b, c, d, e, f, g, h, i, j]] }

/-- Modelled from the spec: `round_shift` is not part of the sources; section 4.3 describes
it as the right shift by `decimal_point` that re-normalises the accumulated sum. -/
def round_shift (x : Int) (decimal_point : Nat) : Int := x >>> decimal_point

/-- Modelled from the spec: the dot-product value of section 4.3,
`round_shift(sum_{i < blockSize} srcA[i]*srcB[i], decimal_point)`, for vectors stored in
`mem` at the addresses `pSrcA` and `pSrcB`; the shift is applied once, to the full sum. -/
def dot_prod_value (mem : Nat → Int) (pSrcA pSrcB blockSize deciPoint : Nat) : Int :=
  round_shift (((List.range blockSize).map
    (fun i => mem (pSrcA + i) * mem (pSrcB + i))).sum) deciPoint

/-- Modelled from the spec: the kernels `plp_dot_prod_q32s_rv32im` and
`plp_dot_prod_q32s_xpulpv2` are not part of the sources; this is a kernel that meets the
contract of section 4.3, storing the dot-product value to `*pRes`. -/
def dot_prod_kernel_ref (pSrcA pSrcB blockSize deciPoint pRes : Nat) (mem : Nat → Int) :
    Nat → Int :=
  Function.update mem pRes (dot_prod_value mem pSrcA pSrcB blockSize deciPoint)

/-! ## Reference traversal used in the proofs about the matrix kernel -/

/-- The elements `0 .. k-1` of one row written one at a time, low index first, starting at
the pointers `pA`, `pB`, `pD`. -/
def rowSeq (srcA srcB : Nat → Int) : Nat → Nat → Nat → Nat → (Nat → Int) → (Nat → Int)
  | 0, _, _, _, d => d
  | k + 1, pA, pB, pD, d =>
    rowSeq srcA srcB k (ptrAdd pA 1) (ptrAdd pB 1) (ptrAdd pD 1)
      (Function.update d pD (wrap8 (srcA pA + srcB pB)))

/-- Two rows advanced together in chunks of `c` elements, `k` chunks: the chunk of the
first row, then the chunk of the second row. -/
def pairSeq (srcA srcB : Nat → Int) (c : Nat) :
    Nat → Nat → Nat → Nat → Nat → Nat → Nat → (Nat → Int) → (Nat → Int)
  | 0, _, _, _, _, _, _, d => d
  | k + 1, pA, pB, pD, qA, qB, qD, d =>
    pairSeq srcA srcB c k (ptrAdd pA c) (ptrAdd pB c) (ptrAdd pD c)
      (ptrAdd qA c) (ptrAdd qB c) (ptrAdd qD c)
      (rowSeq srcA srcB c qA qB qD (rowSeq srcA srcB c pA pB pD d))

/-- All rows `0 .. M-1` one after the other, each written one element at a time. -/
def rowsSeq (srcA srcB : Nat → Int) (N strideA strideB strideY : Nat) (M : Nat)
    (d : Nat → Int) : Nat → Int :=
  forLoop M (fun m d =>
    rowSeq srcA srcB N (u32 (m * strideA)) (u32 (m * strideB)) (u32 (m * strideY)) d) d

/-- All six running pointers are 32-bit addresses. -/
def MatAddState.PtrsOk (s : MatAddState) : Prop :=
  s.pSrcA < 2 ^ 32 ∧ s.pSrcB < 2 ^ 32 ∧ s.pDst < 2 ^ 32 ∧
  s.pSrcA2 < 2 ^ 32 ∧ s.pSrcB2 < 2 ^ 32 ∧ s.pDst2 < 2 ^ 32


/-! ## Instrumented runs

To speak about the accesses a body performs, a run carries a log next to its state. The
state component of an instrumented step is the step of the plain embedding; the log
component lists, in program order, the elements the source statement dereferences. -/

/-- A state together with the accesses performed so far, oldest first. -/
structure Traced (σ α : Type) where
  st : σ
  log : List α

/-- One instrumented step: the accesses `acc` of the step, taken in the state it starts
from, are appended to the log, and the state advances by `f`. -/
def Traced.step {σ α : Type} (f : σ → σ) (acc : σ → List α) (t : Traced σ α) : Traced σ α :=
  { st := f t.st, log := t.log ++ acc t.st }

/-- The accesses of `k` consecutive steps started in state `s`. -/
def iterLog {σ α : Type} (f : σ → σ) (acc : σ → List α) : Nat → σ → List α
  | 0, _ => []
  | k + 1, s => acc s ++ iterLog f acc k (f s)

/-- Lines 84-85: the elements read by one step of the two-at-a-time loop, `*pSrc++` twice. -/
def min_unroll_reads (s : MinState) : List Nat := [s.pSrc, s.pSrc + 1]

/-- Lines 98 and 107: the element read by a single step, `*pSrc++`. -/
def min_single_reads (s : MinState) : List Nat := [s.pSrc]

/-- Lines 83-95: the instrumented two-at-a-time loop, started with an empty log. -/
def min_pair_loop_traced (src : Nat → Int) (blockSize : Nat) : Traced MinState Nat :=
  (Traced.step (min_unroll_body src) min_unroll_reads)^[blockSize >>> 1]
    { st := { pSrc := 0, min := 0x7FFF }, log := [] }

/-- Lines 77-113, instrumented: the final local state and the elements of `pSrc` read. -/
def min_traced (PLP_MATH_LOOPUNROLL : Bool) (src : Nat → Int) (blockSize : Nat) :
    Traced MinState Nat :=
  if PLP_MATH_LOOPUNROLL then
    let t1 := min_pair_loop_traced src blockSize
    if blockSize % 2 = 1 then Traced.step (min_single_body src) min_single_reads t1 else t1
  else
    (Traced.step (min_single_body src) min_single_reads)^[blockSize]
      { st := { pSrc := 0, min := 0x7FFF }, log := [] }

/-- The indices of the elements of `pSrc` that `plp_min_i16s_xpulpv2` reads, in the order
in which it reads them. -/
def plp_min_i16s_xpulpv2_reads (PLP_MATH_LOOPUNROLL : Bool) (pSrc : Nat → Int)
    (blockSize : Nat) : List Nat :=
  (min_traced PLP_MATH_LOOPUNROLL pSrc blockSize).log

/-- An access of the matrix kernel: a read of `srcA`, a read of `srcB` or a write of `dst`,
with the element offset in that buffer. -/
inductive Access where
  | readA : Nat → Access
  | readB : Nat → Access
  | write : Nat → Access
  deriving DecidableEq

/-- The four element offsets of a `v4s` access at `p`. -/
def v4s_lanes (p : Nat) : List Nat := [p, ptrAdd p 1, ptrAdd p 2, ptrAdd p 3]

/-- Lines 95-100: the accesses of one packed step on a pair of rows. -/
def pair_v4s_accesses (s : MatAddState) : List Access :=
  (v4s_lanes s.pSrcA).map Access.readA ++ (v4s_lanes s.pSrcB).map Access.readB ++
  (v4s_lanes s.pSrcA2).map Access.readA ++ (v4s_lanes s.pSrcB2).map Access.readB ++
  (v4s_lanes s.pDst).map Access.write ++ (v4s_lanes s.pDst2).map Access.write

/-- Lines 109-110: the accesses of one scalar step on a pair of rows. -/
def pair_rem_accesses (s : MatAddState) : List Access :=
  [Access.readA s.pSrcA, Access.readB s.pSrcB, Access.write s.pDst,
   Access.readA s.pSrcA2, Access.readB s.pSrcB2, Access.write s.pDst2]

/-- Lines 122-124: the accesses of one packed step of the tail row. -/
def tail_v4s_accesses (s : MatAddState) : List Access :=
  (v4s_lanes s.pSrcA).map Access.readA ++ (v4s_lanes s.pSrcB).map Access.readB ++
  (v4s_lanes s.pDst).map Access.write

/-- Line 130: the accesses of one scalar step of the tail row. -/
def tail_rem_accesses (s : MatAddState) : List Access :=
  [Access.readA s.pSrcA, Access.readB s.pSrcB, Access.write s.pDst]

/-- Lines 94-117, instrumented (the pointer updates of lines 112-117 access no buffer). -/
def pair_body_traced (srcA srcB : Nat → Int) (n_iter n_rem step_a step_b step_y : Nat)
    (t : Traced MatAddState Access) : Traced MatAddState Access :=
  Traced.step (pair_step step_a step_b step_y) (fun _ => [])
    ((Traced.step (pair_rem_body srcA srcB) pair_rem_accesses)^[n_rem]
      ((Traced.step (pair_v4s_body srcA srcB) pair_v4s_accesses)^[n_iter] t))

/-- Lines 121-134, instrumented. -/
def tail_body_traced (srcA srcB : Nat → Int) (n_iter n_rem step_a step_b step_y : Nat)
    (t : Traced MatAddState Access) : Traced MatAddState Access :=
  Traced.step (tail_step step_a step_b step_y) (fun _ => [])
    ((Traced.step (tail_rem_body srcA srcB) tail_rem_accesses)^[n_rem]
      ((Traced.step (tail_v4s_body srcA srcB) tail_v4s_accesses)^[n_iter] t))

/-- Lines 77-81: the local state on entry to the loops. -/
def mat_add_init (strideA strideB strideY : Nat) (dst : Nat → Int) : MatAddState :=
  { pSrcA := 0, pSrcB := 0, pDst := 0,
    pSrcA2 := ptrAdd 0 strideA, pSrcB2 := ptrAdd 0 strideB, pDst2 := ptrAdd 0 strideY,
    dst := dst }

/-- Lines 83-118: the local state at the start of iteration `k` of the row-pair loop, that
is, after `k` iterations of its body. -/
def mat_add_pairs (srcA srcB : Nat → Int) (N strideA strideB strideY : Nat)
    (dst : Nat → Int) (k : Nat) : MatAddState :=
  (pair_body srcA srcB (N >>> 2) (N &&& 3) (u32_sub (strideA * 2) N)
    (u32_sub (strideB * 2) N) (u32_sub (strideY * 2) N))^[k]
    (mat_add_init strideA strideB strideY dst)

/-- Lines 83-118, instrumented: the row-pair loop run to its end. -/
def mat_add_pairs_traced (srcA srcB : Nat → Int) (M N strideA strideB strideY : Nat)
    (dst : Nat → Int) : Traced MatAddState Access :=
  (pair_body_traced srcA srcB (N >>> 2) (N &&& 3) (u32_sub (strideA * 2) N)
    (u32_sub (strideB * 2) N) (u32_sub (strideY * 2) N))^[M >>> 1]
    { st := mat_add_init strideA strideB strideY dst, log := [] }

/-- Lines 77-135, instrumented: the final local state and all accesses of the optimised
body, in program order. -/
def mat_add_optimised_traced (srcA srcB : Nat → Int) (M N strideA strideB strideY : Nat)
    (dst : Nat → Int) : Traced MatAddState Access :=
  let t1 := mat_add_pairs_traced srcA srcB M N strideA strideB strideY dst
  if M &&& 1 ≠ 0 then
    tail_body_traced srcA srcB (N >>> 2) (N &&& 3) (u32_sub (strideA * 2) N)
      (u32_sub (strideB * 2) N) (u32_sub (strideY * 2) N) t1
  else t1

/-- Lines 121-131: the accesses of the tail pass alone, run from the state the row-pair
loop leaves. -/
def mat_add_tail_accesses (srcA srcB : Nat → Int) (M N strideA strideB strideY : Nat)
    (dst : Nat → Int) : List Access :=
  (tail_body_traced srcA srcB (N >>> 2) (N &&& 3) (u32_sub (strideA * 2) N)
    (u32_sub (strideB * 2) N) (u32_sub (strideY * 2) N)
    { st := (mat_add_pairs_traced srcA srcB M N strideA strideB strideY dst).st,
      log := [] }).log

/-- The accesses of rows started at the pointers `pA`, `pB`, `pD`: the access `e` touches
one of the first `N` elements from there. -/
def RowAccess (pA pB pD N : Nat) (e : Access) : Prop :=
  ∃ n, n < N ∧
    (e = Access.readA (ptrAdd pA n) ∨ e = Access.readB (ptrAdd pB n) ∨
      e = Access.write (ptrAdd pD n))

/-- Input `A` of the overlapping-rows example: a 2 x 8 matrix with stride 8. -/
def overlap_srcA : Nat → Int := buf [1, 2, 3, 4, 5, 6, 7, 8, 9, 10, 11, 12, 13, 14, 15, 16]

/-- Input `B` of the overlapping-rows example: a 2 x 8 matrix with stride 8. -/
def overlap_srcB : Nat → Int :=
  buf [0, 0, 0, 0, 0, 0, 0, 0, 50, 50, 50, 50, 50, 50, 50, 50]

/-- Output buffer of the overlapping-rows example: 12 elements, all 0. -/
def overlap_dst : Nat → Int := buf [0, 0, 0, 0, 0, 0, 0, 0, 0, 0, 0, 0]

/-- The accesses of one run of the body of the row-pair loop started in state `s`. -/
def pair_body_accesses (srcA srcB : Nat → Int) (n_iter n_rem : Nat) (s : MatAddState) :
    List Access :=
  iterLog (pair_v4s_body srcA srcB) pair_v4s_accesses n_iter s ++
    iterLog (pair_rem_body srcA srcB) pair_rem_accesses n_rem
      ((pair_v4s_body srcA srcB)^[n_iter] s)

/-- The accesses of one run of the tail pass started in state `s`. -/
def tail_body_accesses (srcA srcB : Nat → Int) (n_iter n_rem : Nat) (s : MatAddState) :
    List Access :=
  iterLog (tail_v4s_body srcA srcB) tail_v4s_accesses n_iter s ++
    iterLog (tail_rem_body srcA srcB) tail_rem_accesses n_rem
      ((tail_v4s_body srcA srcB)^[n_iter] s)

/-! ## Minimum kernel: loop lemmas -/

theorem min_unroll_body_eq (src : Nat → Int) (s : MinState) :
    min_unroll_body src s = min_single_body src (min_single_body src s) := by
  simp only [min_unroll_body, min_single_body]
  congr 1
  split_ifs <;> omega

theorem min_unroll_iterate (src : Nat → Int) (k : Nat) (s : MinState) :
    (min_unroll_body src)^[k] s = (min_single_body src)^[2 * k] s := by
  induction k generalizing s with
  | zero => rfl
  | succ k ih =>
    have h2 : 2 * (k + 1) = (2 * k + 1) + 1 := by ring
    rw [h2, Function.iterate_succ_apply, Function.iterate_succ_apply,
      Function.iterate_succ_apply, ih, min_unroll_body_eq]

theorem min_final_state_unroll (src : Nat → Int) (blockSize : Nat) :
    min_final_state true src blockSize = min_final_state false src blockSize := by
  have hdiv : blockSize >>> 1 = blockSize / 2 := by
    simp [Nat.shiftRight_eq_div_pow]
  simp only [min_final_state, hdiv, min_unroll_iterate, ↓reduceIte, Bool.false_eq_true]
  by_cases h : blockSize % 2 = 1
  · rw [if_pos h, ← Function.iterate_succ_apply' (min_single_body src)]
    have e : (2 * (blockSize / 2)).succ = blockSize := by omega
    rw [e]
  · rw [if_neg h]
    have e : 2 * (blockSize / 2) = blockSize := by omega
    rw [e]

theorem min_single_iterate_le_init (src : Nat → Int) (k : Nat) (s : MinState) :
    ((min_single_body src)^[k] s).min ≤ s.min := by
  induction k generalizing s with
  | zero => exact le_refl _
  | succ k ih =>
    rw [Function.iterate_succ_apply]
    refine le_trans (ih _) ?_
    simp only [min_single_body]
    split_ifs <;> omega

theorem min_single_iterate_le (src : Nat → Int) (k : Nat) (s : MinState) (i : Nat)
    (hi : i < k) : ((min_single_body src)^[k] s).min ≤ src (s.pSrc + i) := by
  induction k generalizing s i with
  | zero => omega
  | succ k ih =>
    rw [Function.iterate_succ_apply]
    rcases Nat.eq_zero_or_pos i with h0 | hpos
    · subst h0
      refine le_trans (min_single_iterate_le_init src k _) ?_
      simp only [min_single_body, Nat.add_zero]
      split_ifs <;> omega
    · have h := ih (min_single_body src s) (i - 1) (by omega)
      have e : (min_single_body src s).pSrc + (i - 1) = s.pSrc + i := by
        simp only [min_single_body]; omega
      rw [e] at h
      exact h

theorem min_single_iterate_mem (src : Nat → Int) (k : Nat) (s : MinState) :
    ((min_single_body src)^[k] s).min = s.min ∨
      ∃ i, i < k ∧ ((min_single_body src)^[k] s).min = src (s.pSrc + i) := by
  induction k generalizing s with
  | zero => exact Or.inl rfl
  | succ k ih =>
    rw [Function.iterate_succ_apply]
    rcases ih (min_single_body src s) with h | ⟨i, hi, h⟩
    · rw [h]
      simp only [min_single_body]
      split_ifs
      · exact Or.inr ⟨0, by omega, by simp⟩
      · exact Or.inl rfl
    · refine Or.inr ⟨i + 1, by omega, ?_⟩
      rw [h]
      simp only [min_single_body]
      congr 1
      omega

/-- The value of the kernel, whichever loop body is compiled, is the plain loop's value. -/
theorem plp_min_eq_single (unroll : Bool) (src : Nat → Int) (blockSize : Nat) :
    plp_min_i16s_xpulpv2 unroll src blockSize =
      ((min_single_body src)^[blockSize] ⟨0, 0x7FFF⟩).min := by
  cases unroll
  · simp [plp_min_i16s_xpulpv2, min_final_state]
  · rw [plp_min_i16s_xpulpv2, min_final_state_unroll]
    simp [min_final_state]

theorem plp_min_le (unroll : Bool) (src : Nat → Int) (blockSize i : Nat) (hi : i < blockSize) :
    plp_min_i16s_xpulpv2 unroll src blockSize ≤ src i := by
  rw [plp_min_eq_single]
  have h := min_single_iterate_le src blockSize ⟨0, 0x7FFF⟩ i hi
  simpa using h

theorem min_single_iterate_foldl (l : List Int) (src : Nat → Int) (p : Nat) (m : Int)
    (h : ∀ i, i < l.length → src (p + i) = l.getD i 0) :
    ((min_single_body src)^[l.length] ⟨p, m⟩).min = l.foldl minStep m := by
  induction l generalizing p m with
  | nil => rfl
  | cons x xs ih =>
    rw [List.length_cons, Function.iterate_succ_apply, List.foldl_cons]
    have hx : src p = x := by simpa using h 0 (by simp)
    have e : min_single_body src ⟨p, m⟩ = ⟨p + 1, minStep m x⟩ := by
      simp [min_single_body, minStep, hx]
    rw [e]
    apply ih
    intro i hi
    have h1 := h (i + 1) (by simp; omega)
    have e2 : p + 1 + i = p + (i + 1) := by omega
    rw [e2, h1]
    simp

theorem minStep_right_comm (m x y : Int) : minStep (minStep m x) y = minStep (minStep m y) x := by
  simp only [minStep]
  split_ifs <;> omega

/-! ## Minimum kernel: claims -/

/-- C3. For every `blockSize ≥ 1` and every vector of `blockSize` 16-bit signed integers the
value written to `*pRes` is the minimum of `src[0..blockSize-1]`: it is less than or equal to
every element and equal to at least one of them, and for `blockSize = 1` it is `src[0]`;
with `PLP_MATH_LOOPUNROLL` defined or not. -/
theorem plp_min_i16s_xpulpv2_is_minimum (PLP_MATH_LOOPUNROLL : Bool) (pSrc : Nat → Int)
    (blockSize : Nat) (hpos : 1 ≤ blockSize)
    (hint16 : ∀ i, i < blockSize → -32768 ≤ pSrc i ∧ pSrc i ≤ 32767) :
    (∀ i, i < blockSize → plp_min_i16s_xpulpv2 PLP_MATH_LOOPUNROLL pSrc blockSize ≤ pSrc i) ∧
    (∃ i, i < blockSize ∧ plp_min_i16s_xpulpv2 PLP_MATH_LOOPUNROLL pSrc blockSize = pSrc i) ∧
    (blockSize = 1 → plp_min_i16s_xpulpv2 PLP_MATH_LOOPUNROLL pSrc blockSize = pSrc 0) := by
  have hle : ∀ i, i < blockSize →
      plp_min_i16s_xpulpv2 PLP_MATH_LOOPUNROLL pSrc blockSize ≤ pSrc i :=
    fun i hi => plp_min_le _ _ _ _ hi
  have hmem : ∃ i, i < blockSize ∧
      plp_min_i16s_xpulpv2 PLP_MATH_LOOPUNROLL pSrc blockSize = pSrc i := by
    rcases min_single_iterate_mem pSrc blockSize ⟨0, 0x7FFF⟩ with h | ⟨i, hi, h⟩
    · refine ⟨0, by omega, ?_⟩
      have h0 := hle 0 (by omega)
      have h1 := (hint16 0 (by omega)).2
      rw [plp_min_eq_single] at h0 ⊢
      simp only at h
      omega
    · refine ⟨i, hi, ?_⟩
      rw [plp_min_eq_single, h]
      simp
  refine ⟨hle, hmem, ?_⟩
  intro h1
  obtain ⟨i, hi, h⟩ := hmem
  have : i = 0 := by omega
  rw [h, this]

/-- C3, at the vector `[7,-3,5,-3,9]`: both loop bodies give `-3`. -/
theorem plp_min_i16s_xpulpv2_is_minimum_witness :
    plp_min_i16s_xpulpv2 true (buf [7, -3, 5, -3, 9]) 5 = -3 ∧
    plp_min_i16s_xpulpv2 false (buf [7, -3, 5, -3, 9]) 5 = -3 ∧
    ((∀ i, i < 5 → plp_min_i16s_xpulpv2 true (buf [7, -3, 5, -3, 9]) 5
        ≤ buf [7, -3, 5, -3, 9] i) ∧
     (∃ i, i < 5 ∧ plp_min_i16s_xpulpv2 true (buf [7, -3, 5, -3, 9]) 5
        = buf [7, -3, 5, -3, 9] i) ∧
     ((5 : Nat) = 1 → plp_min_i16s_xpulpv2 true (buf [7, -3, 5, -3, 9]) 5
        = buf [7, -3, 5, -3, 9] 0)) :=
  ⟨by decide, by decide,
   plp_min_i16s_xpulpv2_is_minimum true (buf [7, -3, 5, -3, 9]) 5 (by decide) (by decide)⟩

/-- C4. For every `blockSize` and every input the two-at-a-time body (lines 83-102) and the
one-at-a-time body (lines 106-111) write the same value to `*pRes`. -/
theorem plp_min_i16s_xpulpv2_unroll_eq_plain (pSrc : Nat → Int) (blockSize : Nat) :
    plp_min_i16s_xpulpv2 true pSrc blockSize = plp_min_i16s_xpulpv2 false pSrc blockSize := by
  rw [plp_min_i16s_xpulpv2, plp_min_i16s_xpulpv2, min_final_state_unroll]

/-- C8. Two vectors of the same length that are permutations of each other give the same
value in `*pRes`, with either loop body. -/
theorem plp_min_i16s_xpulpv2_perm (PLP_MATH_LOOPUNROLL : Bool) (v w : List Int)
    (hperm : v.Perm w) :
    plp_min_i16s_xpulpv2 PLP_MATH_LOOPUNROLL (buf v) v.length =
      plp_min_i16s_xpulpv2 PLP_MATH_LOOPUNROLL (buf w) w.length := by
  rw [plp_min_eq_single, plp_min_eq_single,
    min_single_iterate_foldl v (buf v) 0 _ (fun i _ => by simp [buf]),
    min_single_iterate_foldl w (buf w) 0 _ (fun i _ => by simp [buf])]
  haveI : RightCommutative minStep := ⟨minStep_right_comm⟩
  exact hperm.foldl_eq _

/-- C8, at `[7,-3,5,-3,9]` and its rearrangement `[9,-3,-3,7,5]`. -/
theorem plp_min_i16s_xpulpv2_perm_witness :
    plp_min_i16s_xpulpv2 true (buf [7, -3, 5, -3, 9]) [7, -3, 5, -3, 9].length =
      plp_min_i16s_xpulpv2 true (buf [9, -3, -3, 7, 5]) [9, -3, -3, 7, 5].length :=
  plp_min_i16s_xpulpv2_perm true [7, -3, 5, -3, 9] [9, -3, -3, 7, 5] (by decide)

/-- C10, refuted as stated: on `[7,-3]` the value written is `-3`, which is below the
element `7`, so it is not greater than or equal to every element. -/
theorem plp_min_i16s_xpulpv2_not_greatest :
    ¬ (∀ i, i < 2 → buf [7, -3] i ≤ plp_min_i16s_xpulpv2 true (buf [7, -3]) 2) ∧
    ¬ (∀ i, i < 2 → buf [7, -3] i ≤ plp_min_i16s_xpulpv2 false (buf [7, -3]) 2) := by
  decide

/-- C10, amended: the value written to `*pRes` is the least of the elements, that is, for
every non-empty vector (one that has an element `i < blockSize`) it is less than or equal to
every element of the vector. -/
theorem plp_min_i16s_xpulpv2_least (PLP_MATH_LOOPUNROLL : Bool) (pSrc : Nat → Int)
    (blockSize : Nat) (i : Nat) (hi : i < blockSize) :
    plp_min_i16s_xpulpv2 PLP_MATH_LOOPUNROLL pSrc blockSize ≤ pSrc i :=
  plp_min_le PLP_MATH_LOOPUNROLL pSrc blockSize i hi

/-- C10 amended, at `[7,-3]` and the element `7`. -/
theorem plp_min_i16s_xpulpv2_least_witness :
    plp_min_i16s_xpulpv2 true (buf [7, -3]) 2 ≤ buf [7, -3] 0 :=
  plp_min_i16s_xpulpv2_least true (buf [7, -3]) 2 0 (by decide)


/-! ## Dispatch glue: claims -/

/-- C5. Dispatch selection of both glue functions, run with instrumented stubs: for every
core identity the identity is queried exactly once and exactly one kernel is invoked
exactly once, the rv32im kernel if and only if the identity equals `ARCHI_FC_CID`, the
xpulpv2 kernel for every other identity. -/
theorem glue_dispatch_selection (cid ARCHI_FC_CID : Int)
    (pSrcA pSrcB blockSize deciPoint pRes M N O strideA strideB strideC shift pDstC : Nat) :
    (plp_dot_prod_q32s probe_cluster_id ARCHI_FC_CID probe_rv32im5 probe_xpulpv25
        pSrcA pSrcB blockSize deciPoint pRes ⟨cid, []⟩).trace =
      [GlueEvent.query,
       if cid = ARCHI_FC_CID then GlueEvent.rv32im [pSrcA, pSrcB, blockSize, deciPoint, pRes]
       else GlueEvent.xpulpv2 [pSrcA, pSrcB, blockSize, deciPoint, pRes]] ∧
    (plp_mat_mult_trans_cmplx_stride_q8 probe_cluster_id ARCHI_FC_CID probe_rv32im10
        probe_xpulpv210 pSrcA pSrcB M N O strideA strideB strideC shift pDstC ⟨cid, []⟩).trace =
      [GlueEvent.query,
       if cid = ARCHI_FC_CID then
         GlueEvent.rv32im [pSrcA, pSrcB, M, N, O, strideA, strideB, strideC, shift, pDstC]
       else
         GlueEvent.xpulpv2 [pSrcA, pSrcB, M, N, O, strideA, strideB, strideC, shift, pDstC]] := by
  constructor
  · by_cases h : cid = ARCHI_FC_CID
    · simp [plp_dot_prod_q32s, probe_cluster_id, probe_rv32im5, h]
    · simp [plp_dot_prod_q32s, probe_cluster_id, probe_xpulpv25, h]
  · by_cases h : cid = ARCHI_FC_CID
    · simp [plp_mat_mult_trans_cmplx_stride_q8, probe_cluster_id, probe_rv32im10, h]
    · simp [plp_mat_mult_trans_cmplx_stride_q8, probe_cluster_id, probe_xpulpv210, h]

/-- C7. Argument forwarding: for every machine, every pair of kernels and every argument
tuple, the state after `plp_dot_prod_q32s` is the state the selected kernel produces on
`(pSrcA, pSrcB, blockSize, deciPoint, pRes)`, and the state after
`plp_mat_mult_trans_cmplx_stride_q8` is the state the selected kernel produces on
`(pSrcA, pSrcB, M, N, O, strideA, strideB, strideC, shift, pDstC)`, started from the state
the capability query left; the glue adds no access of its own. -/
theorem glue_forwards_arguments {σ : Type} (rt_cluster_id : σ → Int × σ) (ARCHI_FC_CID : Int)
    (dot_rv32im dot_xpulpv2 : Nat → Nat → Nat → Nat → Nat → σ → σ)
    (mat_rv32im mat_xpulpv2 :
      Nat → Nat → Nat → Nat → Nat → Nat → Nat → Nat → Nat → Nat → σ → σ)
    (pSrcA pSrcB blockSize deciPoint pRes M N O strideA strideB strideC shift pDstC : Nat)
    (s : σ) :
    plp_dot_prod_q32s rt_cluster_id ARCHI_FC_CID dot_rv32im dot_xpulpv2
        pSrcA pSrcB blockSize deciPoint pRes s =
      (if (rt_cluster_id s).1 = ARCHI_FC_CID then dot_rv32im else dot_xpulpv2)
        pSrcA pSrcB blockSize deciPoint pRes (rt_cluster_id s).2 ∧
    plp_mat_mult_trans_cmplx_stride_q8 rt_cluster_id ARCHI_FC_CID mat_rv32im mat_xpulpv2
        pSrcA pSrcB M N O strideA strideB strideC shift pDstC s =
      (if (rt_cluster_id s).1 = ARCHI_FC_CID then mat_rv32im else mat_xpulpv2)
        pSrcA pSrcB M N O strideA strideB strideC shift pDstC (rt_cluster_id s).2 := by
  constructor
  · simp only [plp_dot_prod_q32s]
    split_ifs <;> rfl
  · simp only [plp_mat_mult_trans_cmplx_stride_q8]
    split_ifs <;> rfl

/-- C9. Dot-product result through the glue: if each of the two kernels stores
`round_shift(sum_{i < blockSize} srcA[i]*srcB[i], deciPoint)` to `*pRes`, then for every core
identity `plp_dot_prod_q32s` stores that value to `*pRes`; the value does not depend on the
identity of the calling core. -/
theorem plp_dot_prod_q32s_result (cid ARCHI_FC_CID : Int)
    (rv32im xpulpv2 : Nat → Nat → Nat → Nat → Nat → (Nat → Int) → (Nat → Int))
    (hrv32im : ∀ a b n d r mem, rv32im a b n d r mem r = dot_prod_value mem a b n d)
    (hxpulpv2 : ∀ a b n d r mem, xpulpv2 a b n d r mem r = dot_prod_value mem a b n d)
    (pSrcA pSrcB blockSize deciPoint pRes : Nat) (mem : Nat → Int) :
    plp_dot_prod_q32s (fun s => (cid, s)) ARCHI_FC_CID rv32im xpulpv2
        pSrcA pSrcB blockSize deciPoint pRes mem pRes =
      dot_prod_value mem pSrcA pSrcB blockSize deciPoint := by
  simp only [plp_dot_prod_q32s]
  split_ifs
  · exact hrv32im _ _ _ _ _ _
  · exact hxpulpv2 _ _ _ _ _ _

/-- C9, at `A = [1,2,3]` (address 0), `B = [4,5,6]` (address 3), `blockSize = 3`,
`deciPoint = 0`, `pRes` at address 6: the value stored is 32, from the scalar core
(identity equal to `ARCHI_FC_CID`) and from a cluster core alike. -/
theorem plp_dot_prod_q32s_result_witness :
    plp_dot_prod_q32s (fun s => ((0 : Int), s)) 0 dot_prod_kernel_ref dot_prod_kernel_ref
        0 3 3 0 6 (buf [1, 2, 3, 4, 5, 6]) 6 = 32 ∧
    plp_dot_prod_q32s (fun s => ((1 : Int), s)) 0 dot_prod_kernel_ref dot_prod_kernel_ref
        0 3 3 0 6 (buf [1, 2, 3, 4, 5, 6]) 6 = 32 :=
  ⟨(plp_dot_prod_q32s_result 0 0 dot_prod_kernel_ref dot_prod_kernel_ref
      (fun _ _ _ _ _ _ => Function.update_same _ _ _)
      (fun _ _ _ _ _ _ => Function.update_same _ _ _) 0 3 3 0 6 (buf [1, 2, 3, 4, 5, 6])).trans
      (by decide),
   (plp_dot_prod_q32s_result 1 0 dot_prod_kernel_ref dot_prod_kernel_ref
      (fun _ _ _ _ _ _ => Function.update_same _ _ _)
      (fun _ _ _ _ _ _ => Function.update_same _ _ _) 0 3 3 0 6 (buf [1, 2, 3, 4, 5, 6])).trans
      (by decide)⟩


/-! ## Matrix kernel: pointer arithmetic and loops -/

theorem ptrAdd_lt (p k : Nat) : ptrAdd p k < 2 ^ 32 := by
  unfold ptrAdd; omega

theorem u32_lt (x : Nat) : u32 x < 2 ^ 32 := by
  unfold u32; omega

theorem ptrAdd_ptrAdd (p a b : Nat) : ptrAdd (ptrAdd p a) b = ptrAdd p (a + b) := by
  unfold ptrAdd; omega

theorem ptrAdd_zero (p : Nat) (hp : p < 2 ^ 32) : ptrAdd p 0 = p := by
  unfold ptrAdd; omega

theorem forLoopFrom_succ_last {σ : Type} (body : Nat → σ → σ) (k i : Nat) (s : σ) :
    forLoopFrom body (k + 1) i s = body (i + k) (forLoopFrom body k i s) := by
  induction k generalizing i s with
  | zero => rfl
  | succ k ih =>
    rw [forLoopFrom, ih (i + 1) (body i s), forLoopFrom]
    congr 1
    omega

theorem forLoop_succ {σ : Type} (body : Nat → σ → σ) (k : Nat) (s : σ) :
    forLoop (k + 1) body s = body k (forLoop k body s) := by
  unfold forLoop
  rw [forLoopFrom_succ_last, Nat.zero_add]

theorem forLoopFrom_invariant {σ : Type} (body : Nat → σ → σ) (P : σ → Prop) (k i : Nat)
    (s : σ) (h0 : P s) (hstep : ∀ j, i ≤ j → j < i + k → ∀ t, P t → P (body j t)) :
    P (forLoopFrom body k i s) := by
  induction k generalizing i s with
  | zero => exact h0
  | succ k ih =>
    rw [forLoopFrom]
    apply ih
    · exact hstep i (le_refl _) (by omega) s h0
    · intro j h1 h2 t ht
      exact hstep j (by omega) (by omega) t ht

/-! ### One row, one element at a time -/

theorem rowSeq_add (srcA srcB : Nat → Int) (a b pA pB pD : Nat) (d : Nat → Int)
    (hA : pA < 2 ^ 32) (hB : pB < 2 ^ 32) (hD : pD < 2 ^ 32) :
    rowSeq srcA srcB (a + b) pA pB pD d =
      rowSeq srcA srcB b (ptrAdd pA a) (ptrAdd pB a) (ptrAdd pD a)
        (rowSeq srcA srcB a pA pB pD d) := by
  induction a generalizing pA pB pD d with
  | zero =>
    rw [Nat.zero_add, ptrAdd_zero pA hA, ptrAdd_zero pB hB, ptrAdd_zero pD hD]
    rfl
  | succ a ih =>
    have e : a + 1 + b = (a + b) + 1 := by omega
    rw [e, rowSeq, ih _ _ _ _ (ptrAdd_lt _ _) (ptrAdd_lt _ _) (ptrAdd_lt _ _)]
    simp only [ptrAdd_ptrAdd, Nat.add_comm 1 a]
    rfl

theorem rowSeq_update_comm (srcA srcB : Nat → Int) (k pA pB pD a : Nat) (v : Int)
    (d : Nat → Int) (hD : pD < 2 ^ 32) (hne : ∀ j, j < k → ptrAdd pD j ≠ a) :
    rowSeq srcA srcB k pA pB pD (Function.update d a v) =
      Function.update (rowSeq srcA srcB k pA pB pD d) a v := by
  induction k generalizing pA pB pD d with
  | zero => rfl
  | succ k ih =>
    have h0 : pD ≠ a := by
      have := hne 0 (by omega)
      rwa [ptrAdd_zero pD hD] at this
    rw [rowSeq, rowSeq, Function.update_comm h0.symm, ih _ _ _ _ (ptrAdd_lt _ _)]
    intro j hj
    rw [ptrAdd_ptrAdd, Nat.add_comm 1 j]
    exact hne (j + 1) (by omega)

theorem rowSeq_comm (srcA srcB : Nat → Int) (k1 k2 pA pB pD qA qB qD : Nat) (d : Nat → Int)
    (hD : pD < 2 ^ 32) (hQ : qD < 2 ^ 32)
    (hne : ∀ i j, i < k1 → j < k2 → ptrAdd pD i ≠ ptrAdd qD j) :
    rowSeq srcA srcB k1 pA pB pD (rowSeq srcA srcB k2 qA qB qD d) =
      rowSeq srcA srcB k2 qA qB qD (rowSeq srcA srcB k1 pA pB pD d) := by
  induction k2 generalizing qA qB qD d with
  | zero => rfl
  | succ k2 ih =>
    rw [rowSeq, rowSeq, ih _ _ _ _ (ptrAdd_lt _ _), rowSeq_update_comm _ _ _ _ _ _ _ _ _ hD]
    · intro j hj
      have := hne j 0 hj (by omega)
      rwa [ptrAdd_zero qD hQ] at this
    · intro i j hi hj
      rw [ptrAdd_ptrAdd, Nat.add_comm 1 j]
      exact hne i (j + 1) hi (by omega)

theorem rowSeq_frame (srcA srcB : Nat → Int) (k pA pB pD a : Nat) (d : Nat → Int)
    (hD : pD < 2 ^ 32) (hne : ∀ j, j < k → ptrAdd pD j ≠ a) :
    rowSeq srcA srcB k pA pB pD d a = d a := by
  induction k generalizing pA pB pD d with
  | zero => rfl
  | succ k ih =>
    have h0 : a ≠ pD := by
      have := hne 0 (by omega)
      rw [ptrAdd_zero pD hD] at this
      exact fun h => this h.symm
    rw [rowSeq, ih _ _ _ _ (ptrAdd_lt _ _), Function.update_noteq h0]
    intro j hj
    rw [ptrAdd_ptrAdd, Nat.add_comm 1 j]
    exact hne (j + 1) (by omega)

theorem rowSeq_value (srcA srcB : Nat → Int) (k pA pB pD n : Nat) (d : Nat → Int)
    (hA : pA < 2 ^ 32) (hB : pB < 2 ^ 32) (hD : pD < 2 ^ 32) (hn : n < k)
    (hk : k ≤ 2 ^ 32) :
    rowSeq srcA srcB k pA pB pD d (ptrAdd pD n) =
      wrap8 (srcA (ptrAdd pA n) + srcB (ptrAdd pB n)) := by
  induction k generalizing pA pB pD d n with
  | zero => omega
  | succ k ih =>
    rw [rowSeq]
    rcases Nat.eq_zero_or_pos n with h0 | hpos
    · subst h0
      rw [ptrAdd_zero pA hA, ptrAdd_zero pB hB, ptrAdd_zero pD hD,
        rowSeq_frame _ _ _ _ _ _ _ _ (ptrAdd_lt _ _), Function.update_same]
      intro j hj
      unfold ptrAdd
      omega
    · have e : n = 1 + (n - 1) := by omega
      rw [e, ← ptrAdd_ptrAdd pD, ← ptrAdd_ptrAdd pA, ← ptrAdd_ptrAdd pB]
      exact ih _ _ _ _ _ (ptrAdd_lt _ _) (ptrAdd_lt _ _) (ptrAdd_lt _ _) (by omega) (by omega)

/-! ### The loops of the optimised body -/

theorem store_v4s_eq_rowSeq (srcA srcB : Nat → Int) (pA pB pD : Nat) (d : Nat → Int) :
    store_v4s d pD (__ADD4 (load_v4s srcA pA) (load_v4s srcB pB)) =
      rowSeq srcA srcB 4 pA pB pD d := by
  simp [store_v4s, __ADD4, load_v4s, rowSeq, ptrAdd_ptrAdd]

theorem update_eq_rowSeq (srcA srcB : Nat → Int) (pA pB pD : Nat) (d : Nat → Int) :
    Function.update d pD (wrap8 (srcA pA + srcB pB)) = rowSeq srcA srcB 1 pA pB pD d := rfl

theorem tail_v4s_iterate (srcA srcB : Nat → Int) (k : Nat) (s : MatAddState)
    (hA : s.pSrcA < 2 ^ 32) (hB : s.pSrcB < 2 ^ 32) (hD : s.pDst < 2 ^ 32) :
    (tail_v4s_body srcA srcB)^[k] s =
      { s with pSrcA := ptrAdd s.pSrcA (4 * k), pSrcB := ptrAdd s.pSrcB (4 * k),
               pDst := ptrAdd s.pDst (4 * k),
               dst := rowSeq srcA srcB (4 * k) s.pSrcA s.pSrcB s.pDst s.dst } := by
  induction k generalizing s with
  | zero =>
    simp only [Function.iterate_zero, id_eq, Nat.mul_zero, ptrAdd_zero _ hA, ptrAdd_zero _ hB,
      ptrAdd_zero _ hD, rowSeq]
  | succ k ih =>
    have e : 4 * (k + 1) = 4 + 4 * k := by omega
    rw [Function.iterate_succ_apply, ih _ (ptrAdd_lt _ _) (ptrAdd_lt _ _) (ptrAdd_lt _ _), e,
      rowSeq_add _ _ 4 _ _ _ _ _ hA hB hD]
    simp only [tail_v4s_body, store_v4s_eq_rowSeq, ptrAdd_ptrAdd]

theorem tail_rem_iterate (srcA srcB : Nat → Int) (k : Nat) (s : MatAddState)
    (hA : s.pSrcA < 2 ^ 32) (hB : s.pSrcB < 2 ^ 32) (hD : s.pDst < 2 ^ 32) :
    (tail_rem_body srcA srcB)^[k] s =
      { s with pSrcA := ptrAdd s.pSrcA k, pSrcB := ptrAdd s.pSrcB k,
               pDst := ptrAdd s.pDst k,
               dst := rowSeq srcA srcB k s.pSrcA s.pSrcB s.pDst s.dst } := by
  induction k generalizing s with
  | zero =>
    simp only [Function.iterate_zero, id_eq, ptrAdd_zero _ hA, ptrAdd_zero _ hB,
      ptrAdd_zero _ hD, rowSeq]
  | succ k ih =>
    have e : k + 1 = 1 + k := by omega
    rw [Function.iterate_succ_apply, ih _ (ptrAdd_lt _ _) (ptrAdd_lt _ _) (ptrAdd_lt _ _), e,
      rowSeq_add _ _ 1 _ _ _ _ _ hA hB hD]
    simp only [tail_rem_body, update_eq_rowSeq, ptrAdd_ptrAdd]


/-! ### Two rows advanced together -/

theorem pairSeq_eq (srcA srcB : Nat → Int) (c k pA pB pD qA qB qD : Nat) (d : Nat → Int)
    (hpA : pA < 2 ^ 32) (hpB : pB < 2 ^ 32) (hpD : pD < 2 ^ 32)
    (hqA : qA < 2 ^ 32) (hqB : qB < 2 ^ 32) (hqD : qD < 2 ^ 32)
    (hdis : ∀ i j, i < j → j < c * k → ptrAdd qD i ≠ ptrAdd pD j) :
    pairSeq srcA srcB c k pA pB pD qA qB qD d =
      rowSeq srcA srcB (c * k) qA qB qD (rowSeq srcA srcB (c * k) pA pB pD d) := by
  induction k generalizing pA pB pD qA qB qD d with
  | zero => rfl
  | succ k ih =>
    have e : c * (k + 1) = c + c * k := by rw [Nat.mul_succ, Nat.add_comm]
    rw [pairSeq, ih _ _ _ _ _ _ _ (ptrAdd_lt _ _) (ptrAdd_lt _ _) (ptrAdd_lt _ _)
      (ptrAdd_lt _ _) (ptrAdd_lt _ _) (ptrAdd_lt _ _)]
    · rw [rowSeq_comm srcA srcB (c * k) c _ _ _ qA qB qD _ (ptrAdd_lt _ _) hqD, e,
        rowSeq_add _ _ c (c * k) pA pB pD _ hpA hpB hpD,
        rowSeq_add _ _ c (c * k) qA qB qD _ hqA hqB hqD]
      intro i j hi hj
      rw [ptrAdd_ptrAdd]
      exact (hdis j (c + i) (by omega) (by omega)).symm
    · intro i j hij hj
      rw [ptrAdd_ptrAdd, ptrAdd_ptrAdd]
      exact hdis (c + i) (c + j) (by omega) (by omega)

theorem pair_v4s_iterate (srcA srcB : Nat → Int) (k : Nat) (s : MatAddState)
    (hs : s.PtrsOk) :
    (pair_v4s_body srcA srcB)^[k] s =
      { pSrcA := ptrAdd s.pSrcA (4 * k), pSrcB := ptrAdd s.pSrcB (4 * k),
        pDst := ptrAdd s.pDst (4 * k),
        pSrcA2 := ptrAdd s.pSrcA2 (4 * k), pSrcB2 := ptrAdd s.pSrcB2 (4 * k),
        pDst2 := ptrAdd s.pDst2 (4 * k),
        dst := pairSeq srcA srcB 4 k s.pSrcA s.pSrcB s.pDst s.pSrcA2 s.pSrcB2 s.pDst2
          s.dst } := by
  induction k generalizing s with
  | zero =>
    obtain ⟨h1, h2, h3, h4, h5, h6⟩ := hs
    simp only [Function.iterate_zero, id_eq, Nat.mul_zero, ptrAdd_zero _ h1, ptrAdd_zero _ h2,
      ptrAdd_zero _ h3, ptrAdd_zero _ h4, ptrAdd_zero _ h5, ptrAdd_zero _ h6, pairSeq]
  | succ k ih =>
    have e : 4 * (k + 1) = 4 + 4 * k := by omega
    have hs' : (pair_v4s_body srcA srcB s).PtrsOk :=
      ⟨ptrAdd_lt _ _, ptrAdd_lt _ _, ptrAdd_lt _ _, ptrAdd_lt _ _, ptrAdd_lt _ _,
        ptrAdd_lt _ _⟩
    rw [Function.iterate_succ_apply, ih _ hs', e]
    simp only [pair_v4s_body, store_v4s_eq_rowSeq, ptrAdd_ptrAdd, pairSeq]

theorem pair_rem_iterate (srcA srcB : Nat → Int) (k : Nat) (s : MatAddState)
    (hs : s.PtrsOk) :
    (pair_rem_body srcA srcB)^[k] s =
      { pSrcA := ptrAdd s.pSrcA k, pSrcB := ptrAdd s.pSrcB k,
        pDst := ptrAdd s.pDst k,
        pSrcA2 := ptrAdd s.pSrcA2 k, pSrcB2 := ptrAdd s.pSrcB2 k,
        pDst2 := ptrAdd s.pDst2 k,
        dst := pairSeq srcA srcB 1 k s.pSrcA s.pSrcB s.pDst s.pSrcA2 s.pSrcB2 s.pDst2
          s.dst } := by
  induction k generalizing s with
  | zero =>
    obtain ⟨h1, h2, h3, h4, h5, h6⟩ := hs
    simp only [Function.iterate_zero, id_eq, ptrAdd_zero _ h1, ptrAdd_zero _ h2,
      ptrAdd_zero _ h3, ptrAdd_zero _ h4, ptrAdd_zero _ h5, ptrAdd_zero _ h6, pairSeq]
  | succ k ih =>
    have hs' : (pair_rem_body srcA srcB s).PtrsOk :=
      ⟨ptrAdd_lt _ _, ptrAdd_lt _ _, ptrAdd_lt _ _, ptrAdd_lt _ _, ptrAdd_lt _ _,
        ptrAdd_lt _ _⟩
    rw [Function.iterate_succ_apply, ih _ hs']
    simp only [pair_rem_body, update_eq_rowSeq, ptrAdd_ptrAdd, pairSeq, Nat.add_comm 1 k]

/-- The body of the row-pair loop writes the first row of the pair and then the second
one, each low index first, provided no element of the second row lies on a later element
of the first row. -/
theorem pair_body_eq (srcA srcB : Nat → Int) (N step_a step_b step_y : Nat)
    (s : MatAddState) (hs : s.PtrsOk)
    (hdis : ∀ i j, i < j → j < N → ptrAdd s.pDst2 i ≠ ptrAdd s.pDst j) :
    pair_body srcA srcB (N / 4) (N % 4) step_a step_b step_y s =
      { pSrcA := ptrAdd s.pSrcA (N + step_a), pSrcB := ptrAdd s.pSrcB (N + step_b),
        pDst := ptrAdd s.pDst (N + step_y),
        pSrcA2 := ptrAdd s.pSrcA2 (N + step_a), pSrcB2 := ptrAdd s.pSrcB2 (N + step_b),
        pDst2 := ptrAdd s.pDst2 (N + step_y),
        dst := rowSeq srcA srcB N s.pSrcA2 s.pSrcB2 s.pDst2
          (rowSeq srcA srcB N s.pSrcA s.pSrcB s.pDst s.dst) } := by
  obtain ⟨h1, h2, h3, h4, h5, h6⟩ := hs
  have hN : 4 * (N / 4) + N % 4 = N := by omega
  have hs1 : ((pair_v4s_body srcA srcB)^[N / 4] s).PtrsOk := by
    rw [pair_v4s_iterate _ _ _ _ ⟨h1, h2, h3, h4, h5, h6⟩]
    exact ⟨ptrAdd_lt _ _, ptrAdd_lt _ _, ptrAdd_lt _ _, ptrAdd_lt _ _, ptrAdd_lt _ _,
      ptrAdd_lt _ _⟩
  unfold pair_body
  rw [pair_rem_iterate _ _ _ _ hs1, pair_v4s_iterate _ _ _ _ ⟨h1, h2, h3, h4, h5, h6⟩]
  simp only [pair_step, ptrAdd_ptrAdd, hN]
  rw [pairSeq_eq _ _ 4 (N / 4) _ _ _ _ _ _ _ h1 h2 h3 h4 h5 h6
      (fun i j hij hj => hdis i j hij (by omega)),
    pairSeq_eq _ _ 1 (N % 4) _ _ _ _ _ _ _ (ptrAdd_lt _ _) (ptrAdd_lt _ _) (ptrAdd_lt _ _)
      (ptrAdd_lt _ _) (ptrAdd_lt _ _) (ptrAdd_lt _ _),
    Nat.one_mul,
    rowSeq_comm srcA srcB (N % 4) (4 * (N / 4)) _ _ _ s.pSrcA2 s.pSrcB2 s.pDst2 _
      (ptrAdd_lt _ _) h6,
    ← rowSeq_add _ _ _ _ _ _ _ _ h1 h2 h3, ← rowSeq_add _ _ _ _ _ _ _ _ h4 h5 h6, hN]
  · intro i j hi hj
    rw [ptrAdd_ptrAdd]
    exact (hdis j (4 * (N / 4) + i) (by omega) (by omega)).symm
  · intro i j hij hj
    rw [ptrAdd_ptrAdd, ptrAdd_ptrAdd]
    exact hdis (4 * (N / 4) + i) (4 * (N / 4) + j) (by omega) (by omega)

/-- The tail pass writes one row, low index first. -/
theorem tail_body_eq (srcA srcB : Nat → Int) (N step_a step_b step_y : Nat)
    (s : MatAddState) (hA : s.pSrcA < 2 ^ 32) (hB : s.pSrcB < 2 ^ 32)
    (hD : s.pDst < 2 ^ 32) :
    tail_body srcA srcB (N / 4) (N % 4) step_a step_b step_y s =
      { s with pSrcA := ptrAdd s.pSrcA (N + step_a), pSrcB := ptrAdd s.pSrcB (N + step_b),
               pDst := ptrAdd s.pDst (N + step_y),
               dst := rowSeq srcA srcB N s.pSrcA s.pSrcB s.pDst s.dst } := by
  have hN : 4 * (N / 4) + N % 4 = N := by omega
  unfold tail_body
  rw [tail_v4s_iterate _ _ _ _ hA hB hD,
    tail_rem_iterate _ _ _ _ (ptrAdd_lt _ _) (ptrAdd_lt _ _) (ptrAdd_lt _ _)]
  simp only [tail_step, ptrAdd_ptrAdd, hN]
  rw [← rowSeq_add _ _ _ _ _ _ _ _ hA hB hD, hN]


/-! ### Both bodies traverse the rows in order -/

theorem rowsSeq_succ (srcA srcB : Nat → Int) (N strideA strideB strideY M : Nat)
    (d : Nat → Int) :
    rowsSeq srcA srcB N strideA strideB strideY (M + 1) d =
      rowSeq srcA srcB N (u32 (M * strideA)) (u32 (M * strideB)) (u32 (M * strideY))
        (rowsSeq srcA srcB N strideA strideB strideY M d) := by
  unfold rowsSeq
  rw [forLoop_succ]

/-- State of the optimised body after `j` iterations of the row-pair loop: the primary
pointers are at row `2j`, the secondary pointers at row `2j+1`, and rows `0 .. 2j-1` have
been written in order. -/
theorem pair_loop_eq (srcA srcB : Nat → Int) (N strideA strideB strideY : Nat)
    (d : Nat → Int) (hY : N ≤ strideY) (hW : strideY < 2 ^ 32) (j : Nat) :
    (pair_body srcA srcB (N / 4) (N % 4) (u32_sub (strideA * 2) N) (u32_sub (strideB * 2) N)
        (u32_sub (strideY * 2) N))^[j]
      { pSrcA := 0, pSrcB := 0, pDst := 0,
        pSrcA2 := ptrAdd 0 strideA, pSrcB2 := ptrAdd 0 strideB, pDst2 := ptrAdd 0 strideY,
        dst := d } =
      { pSrcA := u32 (2 * j * strideA), pSrcB := u32 (2 * j * strideB),
        pDst := u32 (2 * j * strideY),
        pSrcA2 := u32 ((2 * j + 1) * strideA), pSrcB2 := u32 ((2 * j + 1) * strideB),
        pDst2 := u32 ((2 * j + 1) * strideY),
        dst := rowsSeq srcA srcB N strideA strideB strideY (2 * j) d } := by
  induction j with
  | zero =>
    simp [ptrAdd, u32, rowsSeq, forLoop, forLoopFrom]
  | succ j ih =>
    have e : 2 * (j + 1) = 2 * j + 1 + 1 := by omega
    have e1 : ∀ s : Nat, (2 * j + 1) * s = 2 * j * s + s := fun s => by ring
    have e2 : ∀ s : Nat, (2 * j + 1 + 1) * s = 2 * j * s + s * 2 := fun s => by ring
    have e3 : ∀ s : Nat, (2 * j + 1 + 1 + 1) * s = 2 * j * s + s + s * 2 := fun s => by ring
    have hp : ∀ x s : Nat, ptrAdd (u32 x) (N + u32_sub (s * 2) N) = u32 (x + s * 2) := by
      intro x s
      unfold ptrAdd u32 u32_sub u32
      omega
    rw [Function.iterate_succ_apply', ih, pair_body_eq]
    · simp only [e, rowsSeq_succ, e1, e2, e3, hp]
    · exact ⟨u32_lt _, u32_lt _, u32_lt _, u32_lt _, u32_lt _, u32_lt _⟩
    · intro i k hik hk
      simp only [e1]
      generalize 2 * j * strideY = x
      unfold ptrAdd u32
      omega

theorem and_three (N : Nat) : N &&& 3 = N % 4 := Nat.and_pow_two_sub_one_eq_mod N 2

theorem shiftRight_two (N : Nat) : N >>> 2 = N / 4 := by
  simp [Nat.shiftRight_eq_div_pow]

theorem shiftRight_one (M : Nat) : M >>> 1 = M / 2 := by
  simp [Nat.shiftRight_eq_div_pow]

/-- The optimised body leaves the output buffer as if the rows had been written one after
the other, each one element at a time. -/
theorem mat_add_optimised_dst (srcA srcB : Nat → Int) (M N strideA strideB strideY : Nat)
    (d : Nat → Int) (hY : N ≤ strideY) (hW : strideY < 2 ^ 32) :
    (mat_add_optimised srcA srcB M N strideA strideB strideY d).dst =
      rowsSeq srcA srcB N strideA strideB strideY M d := by
  simp only [mat_add_optimised, and_three, shiftRight_two, shiftRight_one, Nat.and_one_is_mod,
    pair_loop_eq srcA srcB N strideA strideB strideY d hY hW]
  by_cases h : M % 2 = 0
  · have e : 2 * (M / 2) = M := by omega
    simp [h, e]
  · have e : M = 2 * (M / 2) + 1 := by omega
    rw [if_pos h, tail_body_eq _ _ _ _ _ _ _ (u32_lt _) (u32_lt _) (u32_lt _)]
    simp only
    conv_rhs => rw [e, rowsSeq_succ]

theorem basic_row_eq (srcA srcB : Nat → Int) (x y z k i : Nat) (d : Nat → Int) :
    forLoopFrom (fun n d => Function.update d (u32 (x + n))
        (wrap8 (srcA (u32 (y + n)) + srcB (u32 (z + n))))) k i d =
      rowSeq srcA srcB k (u32 (y + i)) (u32 (z + i)) (u32 (x + i)) d := by
  induction k generalizing i d with
  | zero => rfl
  | succ k ih =>
    have hp : ∀ w : Nat, ptrAdd (u32 (w + i)) 1 = u32 (w + (i + 1)) := by
      intro w
      unfold ptrAdd u32
      omega
    rw [forLoopFrom, ih, rowSeq, hp, hp, hp]

/-- The `BASIC_VERSION` body writes the rows one after the other. -/
theorem mat_add_basic_eq (srcA srcB : Nat → Int) (M N strideA strideB strideY : Nat)
    (d : Nat → Int) :
    mat_add_basic srcA srcB M N strideA strideB strideY d =
      rowsSeq srcA srcB N strideA strideB strideY M d := by
  unfold mat_add_basic rowsSeq
  congr 1
  funext m d
  unfold forLoop
  rw [basic_row_eq]
  rfl

/-- Path independence: with `N ≤ strideY` the row-paired packed body and the nested loop
leave the same output buffer. -/
theorem mat_add_optimised_eq_basic (srcA srcB : Nat → Int) (M N strideA strideB strideY : Nat)
    (d : Nat → Int) (hY : N ≤ strideY) (hW : strideY < 2 ^ 32) :
    (mat_add_optimised srcA srcB M N strideA strideB strideY d).dst =
      mat_add_basic srcA srcB M N strideA strideB strideY d := by
  rw [mat_add_optimised_dst _ _ _ _ _ _ _ _ hY hW, mat_add_basic_eq]

/-- Whichever body is compiled, the output buffer is the one of the row-by-row traversal. -/
theorem plp_mat_add_eq_rowsSeq (BASIC_VERSION : Bool) (srcA srcB : Nat → Int)
    (M N strideA strideB strideY : Nat) (d : Nat → Int) (hY : N ≤ strideY)
    (hW : strideY < 2 ^ 32) :
    plp_mat_add_stride_i8s_xpulpv2 BASIC_VERSION srcA srcB M N strideA strideB strideY d =
      rowsSeq srcA srcB N strideA strideB strideY M d := by
  cases BASIC_VERSION
  · simp [plp_mat_add_stride_i8s_xpulpv2, mat_add_optimised_dst _ _ _ _ _ _ _ _ hY hW]
  · simp [plp_mat_add_stride_i8s_xpulpv2, mat_add_basic_eq]


/-! ### What the row-by-row traversal leaves in the output buffer -/

theorem rowsSeq_frame (srcA srcB : Nat → Int) (N strideA strideB strideY M : Nat)
    (d : Nat → Int) (a : Nat)
    (hne : ∀ m, m < M → ∀ n, n < N → a ≠ u32 (m * strideY + n)) :
    rowsSeq srcA srcB N strideA strideB strideY M d a = d a := by
  unfold rowsSeq forLoop
  apply forLoopFrom_invariant _ (fun t => t a = d a) M 0 d rfl
  intro m _ hm t ht
  show rowSeq srcA srcB N _ _ _ t a = d a
  rw [rowSeq_frame _ _ _ _ _ _ _ _ (u32_lt _), ht]
  intro j hj
  have h := hne m (by omega) j hj
  intro hc
  apply h
  rw [← hc]
  unfold ptrAdd u32
  omega

theorem rowsSeq_value (srcA srcB : Nat → Int) (N strideA strideB strideY M : Nat)
    (d : Nat → Int) (hY : N ≤ strideY)
    (ho : ∀ m, m < M → ∀ n, n < N → m * strideY + n < 2 ^ 32)
    (m n : Nat) (hm : m < M) (hn : n < N) :
    rowsSeq srcA srcB N strideA strideB strideY M d (m * strideY + n) =
      wrap8 (srcA (u32 (m * strideA + n)) + srcB (u32 (m * strideB + n))) := by
  induction M with
  | zero => omega
  | succ M ih =>
    rw [rowsSeq_succ]
    have hlast := ho M (by omega) (N - 1) (by omega)
    rcases Nat.lt_or_ge m M with hlt | hge
    · rw [rowSeq_frame _ _ _ _ _ _ _ _ (u32_lt _)]
      · exact ih (fun m' hm' n' hn' => ho m' (by omega) n' hn') hlt
      · intro j hj
        have h1 := ho M (by omega) j hj
        have h2 : (m + 1) * strideY ≤ M * strideY := Nat.mul_le_mul_right _ hlt
        rw [Nat.add_mul, Nat.one_mul] at h2
        unfold ptrAdd u32
        omega
    · have hmM : m = M := by omega
      subst hmM
      have h1 := ho m (by omega) n hn
      have e : m * strideY + n = ptrAdd (u32 (m * strideY)) n := by
        unfold ptrAdd u32
        omega
      have ep : ∀ x : Nat, ptrAdd (u32 x) n = u32 (x + n) := by
        intro x
        unfold ptrAdd u32
        omega
      rw [e, rowSeq_value _ _ _ _ _ _ _ _ (u32_lt _) (u32_lt _) (u32_lt _) hn (by omega),
        ep, ep]

theorem wrap8_spec (x : Int) : -128 ≤ wrap8 x ∧ wrap8 x ≤ 127 ∧ (wrap8 x - x) % 256 = 0 := by
  unfold wrap8
  omega

/-! ## Matrix kernel: claims -/

/-- C1. Optimised path (`BASIC_VERSION` undefined): when `strideY ≥ N` and the index
arithmetic `m*stride + n` does not overflow 32 bits, after the call `dst[m*strideY + n]`
is the 8-bit two's-complement wrapping sum of `srcA[m*strideA + n]` and
`srcB[m*strideB + n]` for every `m < M` and `n < N`: it lies in `-128 .. 127` and differs
from the exact sum by a multiple of 256 (no saturation, no widening). The bounds
`strideA ≥ N` and `strideB ≥ N` are not needed. -/
theorem plp_mat_add_stride_i8s_xpulpv2_correct (pSrcA pSrcB : Nat → Int)
    (M N strideA strideB strideY : Nat) (pDst : Nat → Int)
    (hY : N ≤ strideY) (hW : strideY < 2 ^ 32)
    (hoA : ∀ m, m < M → ∀ n, n < N → m * strideA + n < 2 ^ 32)
    (hoB : ∀ m, m < M → ∀ n, n < N → m * strideB + n < 2 ^ 32)
    (hoY : ∀ m, m < M → ∀ n, n < N → m * strideY + n < 2 ^ 32)
    (m n : Nat) (hm : m < M) (hn : n < N) :
    plp_mat_add_stride_i8s_xpulpv2 false pSrcA pSrcB M N strideA strideB strideY pDst
        (m * strideY + n) =
      wrap8 (pSrcA (m * strideA + n) + pSrcB (m * strideB + n)) ∧
    -128 ≤ plp_mat_add_stride_i8s_xpulpv2 false pSrcA pSrcB M N strideA strideB strideY pDst
        (m * strideY + n) ∧
    plp_mat_add_stride_i8s_xpulpv2 false pSrcA pSrcB M N strideA strideB strideY pDst
        (m * strideY + n) ≤ 127 ∧
    (plp_mat_add_stride_i8s_xpulpv2 false pSrcA pSrcB M N strideA strideB strideY pDst
        (m * strideY + n) - (pSrcA (m * strideA + n) + pSrcB (m * strideB + n))) % 256 = 0 := by
  have hv : plp_mat_add_stride_i8s_xpulpv2 false pSrcA pSrcB M N strideA strideB strideY pDst
      (m * strideY + n) = wrap8 (pSrcA (m * strideA + n) + pSrcB (m * strideB + n)) := by
    rw [plp_mat_add_eq_rowsSeq _ _ _ _ _ _ _ _ _ hY hW,
      rowsSeq_value _ _ _ _ _ _ _ _ hY hoY m n hm hn]
    have eA : u32 (m * strideA + n) = m * strideA + n :=
      Nat.mod_eq_of_lt (hoA m hm n hn)
    have eB : u32 (m * strideB + n) = m * strideB + n :=
      Nat.mod_eq_of_lt (hoB m hm n hn)
    rw [eA, eB]
  rw [hv]
  exact ⟨rfl, wrap8_spec _⟩

/-- C1, at `A = [[1,2],[3,4]]`, `B = [[10,20],[30,40]]`, `M = N = 2`, all strides 2: the
output is `[[11,22],[33,44]]`; and at `A = [[127]]`, `B = [[1]]` the output is `-128`. -/
theorem plp_mat_add_stride_i8s_xpulpv2_correct_witness :
    List.map (plp_mat_add_stride_i8s_xpulpv2 false (buf [1, 2, 3, 4]) (buf [10, 20, 30, 40])
        2 2 2 2 2 (buf [])) [0, 1, 2, 3] = [11, 22, 33, 44] ∧
    plp_mat_add_stride_i8s_xpulpv2 false (buf [127]) (buf [1]) 1 1 1 1 1 (buf []) 0 = -128 ∧
    plp_mat_add_stride_i8s_xpulpv2 false (buf [1, 2, 3, 4]) (buf [10, 20, 30, 40])
        2 2 2 2 2 (buf []) (1 * 2 + 1) =
      wrap8 (buf [1, 2, 3, 4] (1 * 2 + 1) + buf [10, 20, 30, 40] (1 * 2 + 1)) :=
  ⟨by decide, by decide,
   (plp_mat_add_stride_i8s_xpulpv2_correct (buf [1, 2, 3, 4]) (buf [10, 20, 30, 40])
      2 2 2 2 2 (buf []) (by decide) (by decide)
      (fun m hm n hn => by omega) (fun m hm n hn => by omega) (fun m hm n hn => by omega)
      1 1 (by decide) (by decide)).1⟩

/-- C2. For every `M`, `N` and strides with `strideY ≥ N` and every content of the input
and output buffers, the optimised body (lines 77-135) and the `BASIC_VERSION` body
(lines 67-73) leave the whole output buffer in the same state; this includes `M = 0`,
`N = 0`, odd `M` and `N` not a multiple of 4. The bounds `strideA ≥ N` and `strideB ≥ N`
are not needed. -/
theorem plp_mat_add_stride_i8s_xpulpv2_path_independent (pSrcA pSrcB : Nat → Int)
    (M N strideA strideB strideY : Nat) (pDst : Nat → Int)
    (hY : N ≤ strideY) (hW : strideY < 2 ^ 32) :
    plp_mat_add_stride_i8s_xpulpv2 false pSrcA pSrcB M N strideA strideB strideY pDst =
      plp_mat_add_stride_i8s_xpulpv2 true pSrcA pSrcB M N strideA strideB strideY pDst := by
  rw [plp_mat_add_eq_rowsSeq _ _ _ _ _ _ _ _ _ hY hW,
    plp_mat_add_eq_rowsSeq _ _ _ _ _ _ _ _ _ hY hW]

/-- C2, at a 3 x 5 matrix (odd `M`, `N` not a multiple of 4) with strides 7, 7 and 6. -/
theorem plp_mat_add_stride_i8s_xpulpv2_path_independent_witness :
    plp_mat_add_stride_i8s_xpulpv2 false
        (buf [1, 2, 3, 4, 5, 6, 7, 8, 9, 10, 11, 12, 13, 14, 15, 16, 17, 18, 19])
        (buf [127, 20, 30, 40, 50, 0, 0, -128, -1, 100, 90, 80, 0, 0, 5, 4, 3, 2, 1])
        3 5 7 7 6 (buf [9, 9, 9, 9, 9, 9, 9, 9, 9, 9, 9, 9, 9, 9, 9, 9, 9, 9]) =
      plp_mat_add_stride_i8s_xpulpv2 true
        (buf [1, 2, 3, 4, 5, 6, 7, 8, 9, 10, 11, 12, 13, 14, 15, 16, 17, 18, 19])
        (buf [127, 20, 30, 40, 50, 0, 0, -128, -1, 100, 90, 80, 0, 0, 5, 4, 3, 2, 1])
        3 5 7 7 6 (buf [9, 9, 9, 9, 9, 9, 9, 9, 9, 9, 9, 9, 9, 9, 9, 9, 9, 9]) :=
  plp_mat_add_stride_i8s_xpulpv2_path_independent _ _ 3 5 7 7 6 _ (by decide) (by decide)

/-- C6. Frame of the writes, for `strideY ≥ N` and either body: an element of the output
buffer whose index is not `m*strideY + n` (the `uint32_t` expression of line 71) for some
`m < M`, `n < N` keeps its value. When those indices do not overflow 32 bits this holds for
every index not of the form `m*strideY + n`; in particular the `strideY - N` gap elements
after each row and everything after row `M-1` are unchanged. When `M = 0` or `N = 0` the
output buffer is unchanged. -/
theorem plp_mat_add_stride_i8s_xpulpv2_frame (BASIC_VERSION : Bool) (pSrcA pSrcB : Nat → Int)
    (M N strideA strideB strideY : Nat) (pDst : Nat → Int)
    (hY : N ≤ strideY) (hW : strideY < 2 ^ 32) :
    (∀ i, (∀ m, m < M → ∀ n, n < N → i ≠ u32 (m * strideY + n)) →
      plp_mat_add_stride_i8s_xpulpv2 BASIC_VERSION pSrcA pSrcB M N strideA strideB strideY
        pDst i = pDst i) ∧
    ((∀ m, m < M → ∀ n, n < N → m * strideY + n < 2 ^ 32) →
      (∀ i, (∀ m, m < M → ∀ n, n < N → i ≠ m * strideY + n) →
        plp_mat_add_stride_i8s_xpulpv2 BASIC_VERSION pSrcA pSrcB M N strideA strideB strideY
          pDst i = pDst i) ∧
      (∀ m g, m < M → N ≤ g → g < strideY →
        plp_mat_add_stride_i8s_xpulpv2 BASIC_VERSION pSrcA pSrcB M N strideA strideB strideY
          pDst (m * strideY + g) = pDst (m * strideY + g)) ∧
      (∀ i, (M - 1) * strideY + N ≤ i →
        plp_mat_add_stride_i8s_xpulpv2 BASIC_VERSION pSrcA pSrcB M N strideA strideB strideY
          pDst i = pDst i)) ∧
    (M = 0 ∨ N = 0 →
      plp_mat_add_stride_i8s_xpulpv2 BASIC_VERSION pSrcA pSrcB M N strideA strideB strideY
        pDst = pDst) := by
  have hmain : ∀ i, (∀ m, m < M → ∀ n, n < N → i ≠ u32 (m * strideY + n)) →
      plp_mat_add_stride_i8s_xpulpv2 BASIC_VERSION pSrcA pSrcB M N strideA strideB strideY
        pDst i = pDst i := by
    intro i hi
    rw [plp_mat_add_eq_rowsSeq _ _ _ _ _ _ _ _ _ hY hW]
    exact rowsSeq_frame _ _ _ _ _ _ _ _ _ hi
  have hplain : (∀ m, m < M → ∀ n, n < N → m * strideY + n < 2 ^ 32) →
      ∀ i, (∀ m, m < M → ∀ n, n < N → i ≠ m * strideY + n) →
        plp_mat_add_stride_i8s_xpulpv2 BASIC_VERSION pSrcA pSrcB M N strideA strideB strideY
          pDst i = pDst i := by
    intro ho i hi
    apply hmain
    intro m hm n hn
    rw [u32, Nat.mod_eq_of_lt (ho m hm n hn)]
    exact hi m hm n hn
  refine ⟨hmain, fun ho => ⟨hplain ho, ?_, ?_⟩, ?_⟩
  · intro m g _ hg hgs
    apply hplain ho
    intro m' _ n' hn' hc
    rcases Nat.lt_trichotomy m m' with h | h | h
    · have h2 : (m + 1) * strideY ≤ m' * strideY := Nat.mul_le_mul_right _ h
      rw [Nat.add_mul, Nat.one_mul] at h2
      omega
    · subst h
      omega
    · have h2 : (m' + 1) * strideY ≤ m * strideY := Nat.mul_le_mul_right _ h
      rw [Nat.add_mul, Nat.one_mul] at h2
      omega
  · intro i hi
    apply hplain ho
    intro m hm n hn hc
    have h2 : m * strideY ≤ (M - 1) * strideY := Nat.mul_le_mul_right _ (by omega)
    omega
  · intro h0
    funext i
    apply hmain
    intro m hm n hn
    omega

/-- C6, at a 3 x 5 matrix with `strideY = 6` in an 18-element output buffer: the gap
element of row 1 (index 11) and index 17, after the last row, keep their value 9. -/
theorem plp_mat_add_stride_i8s_xpulpv2_frame_witness :
    plp_mat_add_stride_i8s_xpulpv2 false
        (buf [1, 2, 3, 4, 5, 6, 7, 8, 9, 10, 11, 12, 13, 14, 15, 16, 17, 18, 19])
        (buf [127, 20, 30, 40, 50, 0, 0, -128, -1, 100, 90, 80, 0, 0, 5, 4, 3, 2, 1])
        3 5 7 7 6 (buf [9, 9, 9, 9, 9, 9, 9, 9, 9, 9, 9, 9, 9, 9, 9, 9, 9, 9]) (1 * 6 + 5) =
      buf [9, 9, 9, 9, 9, 9, 9, 9, 9, 9, 9, 9, 9, 9, 9, 9, 9, 9] (1 * 6 + 5) ∧
    plp_mat_add_stride_i8s_xpulpv2 false
        (buf [1, 2, 3, 4, 5, 6, 7, 8, 9, 10, 11, 12, 13, 14, 15, 16, 17, 18, 19])
        (buf [127, 20, 30, 40, 50, 0, 0, -128, -1, 100, 90, 80, 0, 0, 5, 4, 3, 2, 1])
        3 5 7 7 6 (buf [9, 9, 9, 9, 9, 9, 9, 9, 9, 9, 9, 9, 9, 9, 9, 9, 9, 9]) 17 =
      buf [9, 9, 9, 9, 9, 9, 9, 9, 9, 9, 9, 9, 9, 9, 9, 9, 9, 9] 17 :=
  ⟨((plp_mat_add_stride_i8s_xpulpv2_frame false _ _ 3 5 7 7 6 _ (by decide) (by decide)).2.1
      (fun m hm n hn => by omega)).2.1 1 5 (by decide) (by decide) (by decide),
   ((plp_mat_add_stride_i8s_xpulpv2_frame false _ _ 3 5 7 7 6 _ (by decide) (by decide)).2.1
      (fun m hm n hn => by omega)).2.2 17 (by decide)⟩


/-! ## Instrumented runs: general lemmas -/

theorem traced_iterate {σ α : Type} (f : σ → σ) (acc : σ → List α) (k : Nat)
    (t : Traced σ α) :
    (Traced.step f acc)^[k] t = ⟨f^[k] t.st, t.log ++ iterLog f acc k t.st⟩ := by
  induction k generalizing t with
  | zero => simp [iterLog]
  | succ k ih =>
    rw [Function.iterate_succ_apply, ih]
    simp [Traced.step, iterLog, List.append_assoc]

theorem mem_iterLog {σ α : Type} (f : σ → σ) (acc : σ → List α) (k : Nat) (s : σ) (e : α) :
    e ∈ iterLog f acc k s ↔ ∃ i, i < k ∧ e ∈ acc (f^[i] s) := by
  induction k generalizing s with
  | zero => simp [iterLog]
  | succ k ih =>
    rw [iterLog, List.mem_append, ih]
    constructor
    · rintro (h | ⟨i, hi, h⟩)
      · exact ⟨0, by omega, h⟩
      · exact ⟨i + 1, by omega, by rwa [Function.iterate_succ_apply]⟩
    · rintro ⟨i, hi, h⟩
      rcases Nat.eq_zero_or_pos i with h0 | hpos
      · subst h0
        exact Or.inl h
      · refine Or.inr ⟨i - 1, by omega, ?_⟩
        have e1 : i = (i - 1) + 1 := by omega
        rw [e1, Function.iterate_succ_apply] at h
        exact h

/-! ## Minimum kernel: reads and block decomposition -/

theorem min_single_iterate_pSrc (src : Nat → Int) (k : Nat) (s : MinState) :
    ((min_single_body src)^[k] s).pSrc = s.pSrc + k := by
  induction k generalizing s with
  | zero => rfl
  | succ k ih =>
    rw [Function.iterate_succ_apply, ih]
    simp only [min_single_body]
    omega

theorem min_single_iterLog (src : Nat → Int) (k : Nat) (s : MinState) :
    iterLog (min_single_body src) min_single_reads k s = List.range' s.pSrc k := by
  induction k generalizing s with
  | zero => rfl
  | succ k ih =>
    rw [iterLog, ih, List.range'_succ]
    rfl

theorem min_unroll_iterLog (src : Nat → Int) (k : Nat) (s : MinState) :
    iterLog (min_unroll_body src) min_unroll_reads k s = List.range' s.pSrc (2 * k) := by
  induction k generalizing s with
  | zero => rfl
  | succ k ih =>
    have e : 2 * (k + 1) = (2 * k + 1) + 1 := by omega
    rw [iterLog, ih, e, List.range'_succ, List.range'_succ]
    rfl

theorem min_pair_loop_traced_eq (src : Nat → Int) (blockSize : Nat) :
    min_pair_loop_traced src blockSize =
      ⟨(min_single_body src)^[2 * (blockSize / 2)] ⟨0, 0x7FFF⟩,
        List.range (2 * (blockSize / 2))⟩ := by
  have hdiv : blockSize >>> 1 = blockSize / 2 := by
    simp [Nat.shiftRight_eq_div_pow]
  rw [min_pair_loop_traced, traced_iterate, hdiv, min_unroll_iterLog, min_unroll_iterate,
    List.range_eq_range']
  rfl

theorem min_traced_st (unroll : Bool) (src : Nat → Int) (blockSize : Nat) :
    (min_traced unroll src blockSize).st = min_final_state unroll src blockSize := by
  cases unroll
  · simp [min_traced, min_final_state, traced_iterate]
  · simp only [min_traced, min_final_state, min_pair_loop_traced, traced_iterate, if_true]
    split_ifs <;> rfl

theorem min_reads_eq_range (unroll : Bool) (src : Nat → Int) (blockSize : Nat) :
    plp_min_i16s_xpulpv2_reads unroll src blockSize = List.range blockSize := by
  cases unroll
  · simp only [plp_min_i16s_xpulpv2_reads, min_traced, traced_iterate, min_single_iterLog,
      List.range_eq_range']
    simp
  · simp only [plp_min_i16s_xpulpv2_reads, min_traced, min_pair_loop_traced_eq, if_true]
    by_cases h : blockSize % 2 = 1
    · have e : blockSize = 2 * (blockSize / 2) + 1 := by omega
      rw [if_pos h]
      conv_rhs => rw [e, List.range_succ]
      simp [Traced.step, min_single_reads, min_single_iterate_pSrc]
    · have e : 2 * (blockSize / 2) = blockSize := by omega
      rw [if_neg h, e]

theorem minStep_eq_min (m x : Int) : minStep m x = min m x := by
  unfold minStep
  rcases le_total m x with h | h
  · rw [min_eq_left h, if_neg (by omega)]
  · rcases eq_or_lt_of_le h with h1 | h1
    · rw [h1, min_self, if_neg (by omega)]
    · rw [min_eq_right h, if_pos h1]

theorem foldl_minStep_le (l : List Int) (m : Int) : l.foldl minStep m ≤ m := by
  induction l generalizing m with
  | nil => exact le_refl _
  | cons x xs ih =>
    rw [List.foldl_cons]
    refine le_trans (ih _) ?_
    rw [minStep_eq_min]
    exact min_le_left _ _

theorem foldl_minStep_le_head (x : Int) (xs : List Int) (m : Int) :
    (x :: xs).foldl minStep m ≤ x := by
  rw [List.foldl_cons]
  refine le_trans (foldl_minStep_le xs _) ?_
  rw [minStep_eq_min]
  exact min_le_right _ _

theorem foldl_minStep_init (l : List Int) (m c : Int) (h : m ≤ c) :
    l.foldl minStep m = min m (l.foldl minStep c) := by
  induction l generalizing m c with
  | nil =>
    simp only [List.foldl_nil]
    exact (min_eq_left h).symm
  | cons x xs ih =>
    have hx : (x :: xs).foldl minStep c ≤ x := foldl_minStep_le_head x xs c
    rw [List.foldl_cons] at hx ⊢
    rw [List.foldl_cons, ih (minStep m x) (minStep c x)
      (by rw [minStep_eq_min, minStep_eq_min]; exact min_le_min h (le_refl _)),
      minStep_eq_min, min_assoc, min_eq_right hx]

theorem plp_min_eq_foldl (unroll : Bool) (v : List Int) :
    plp_min_i16s_xpulpv2 unroll (buf v) v.length = v.foldl minStep 0x7FFF := by
  rw [plp_min_eq_single, min_single_iterate_foldl v (buf v) 0 _ (fun i _ => by simp [buf])]

theorem foldl_minStep_blocks (bs : List (List Int)) (m : Int) (h : m ≤ 0x7FFF) :
    (bs.map (fun b => b.foldl minStep 0x7FFF)).foldl minStep m =
      bs.flatten.foldl minStep m := by
  induction bs generalizing m with
  | nil => rfl
  | cons b bs ih =>
    rw [List.map_cons, List.foldl_cons, List.flatten_cons, List.foldl_append,
      foldl_minStep_init b m 0x7FFF h, minStep_eq_min]
    exact ih _ (le_trans (min_le_left _ _) h)


/-! ## Minimum kernel: further claims -/

/-- C11. Empty input: for `blockSize = 0` the kernel reads no element of `pSrc` and writes
the initial accumulator `0x7FFF` to `*pRes`, with either loop body; and for a vector of
16-bit signed integers the result is `0x7FFF` exactly when `blockSize = 0` or every element
equals `0x7FFF`. The instrumented run that yields the reads computes the kernel's value. -/
theorem plp_min_i16s_xpulpv2_empty (PLP_MATH_LOOPUNROLL : Bool) (pSrc : Nat → Int)
    (blockSize : Nat)
    (hint16 : ∀ i, i < blockSize → -32768 ≤ pSrc i ∧ pSrc i ≤ 32767) :
    plp_min_i16s_xpulpv2_reads PLP_MATH_LOOPUNROLL pSrc 0 = [] ∧
    plp_min_i16s_xpulpv2 PLP_MATH_LOOPUNROLL pSrc 0 = 0x7FFF ∧
    (plp_min_i16s_xpulpv2 PLP_MATH_LOOPUNROLL pSrc blockSize = 0x7FFF ↔
      blockSize = 0 ∨ ∀ i, i < blockSize → pSrc i = 0x7FFF) ∧
    (min_traced PLP_MATH_LOOPUNROLL pSrc blockSize).st.min =
      plp_min_i16s_xpulpv2 PLP_MATH_LOOPUNROLL pSrc blockSize := by
  refine ⟨?_, ?_, ?_, ?_⟩
  · rw [min_reads_eq_range]
    rfl
  · rw [plp_min_eq_single]
    rfl
  · constructor
    · intro h
      refine Or.inr (fun i hi => ?_)
      have h1 := plp_min_le PLP_MATH_LOOPUNROLL pSrc blockSize i hi
      have h2 := (hint16 i hi).2
      rw [h] at h1
      omega
    · intro h
      rw [plp_min_eq_single]
      rcases min_single_iterate_mem pSrc blockSize ⟨0, 0x7FFF⟩ with h1 | ⟨i, hi, h1⟩
      · exact h1
      · rcases h with h0 | hall
        · omega
        · rw [h1]
          simpa using hall i hi
  · rw [min_traced_st]
    rfl

/-- C11, at the empty vector and at the vector `[0x7FFF, 0x7FFF]`: the value written is
`0x7FFF`; at `[0x7FFF, 5]` it is not. -/
theorem plp_min_i16s_xpulpv2_empty_witness :
    plp_min_i16s_xpulpv2_reads true (buf []) 0 = [] ∧
    plp_min_i16s_xpulpv2 true (buf [32767, 32767]) 2 = 0x7FFF ∧
    plp_min_i16s_xpulpv2 true (buf [32767, 5]) 2 ≠ 0x7FFF :=
  ⟨(plp_min_i16s_xpulpv2_empty true (buf []) 0 (by decide)).1,
   (plp_min_i16s_xpulpv2_empty true (buf [32767, 32767]) 2 (by decide)).2.2.1.mpr
     (Or.inr (by decide)),
   fun h => absurd ((plp_min_i16s_xpulpv2_empty true (buf [32767, 5]) 2 (by decide)).2.2.1.mp h)
     (by decide)⟩

/-- C15. Block decomposition: for all vectors `v` and `w` (either may be empty) the result
on `v ++ w` is the smaller of the result on `v` and the result on `w`; the empty-vector
result `0x7FFF` is the identity of this combination on 16-bit values; hence reducing each
block of a partition with the kernel and reducing the partial results with the kernel
again gives the value of one call on the whole vector. With either loop body. -/
theorem plp_min_i16s_xpulpv2_blocks (PLP_MATH_LOOPUNROLL : Bool) (v w : List Int)
    (blocks : List (List Int)) :
    plp_min_i16s_xpulpv2 PLP_MATH_LOOPUNROLL (buf (v ++ w)) (v ++ w).length =
      min (plp_min_i16s_xpulpv2 PLP_MATH_LOOPUNROLL (buf v) v.length)
        (plp_min_i16s_xpulpv2 PLP_MATH_LOOPUNROLL (buf w) w.length) ∧
    plp_min_i16s_xpulpv2 PLP_MATH_LOOPUNROLL (buf []) 0 = 0x7FFF ∧
    (∀ x : Int, x ≤ 32767 →
      min (plp_min_i16s_xpulpv2 PLP_MATH_LOOPUNROLL (buf []) 0) x = x ∧
      min x (plp_min_i16s_xpulpv2 PLP_MATH_LOOPUNROLL (buf []) 0) = x) ∧
    min (plp_min_i16s_xpulpv2 PLP_MATH_LOOPUNROLL (buf []) 0)
        (plp_min_i16s_xpulpv2 PLP_MATH_LOOPUNROLL (buf v) v.length) =
      plp_min_i16s_xpulpv2 PLP_MATH_LOOPUNROLL (buf v) v.length ∧
    plp_min_i16s_xpulpv2 PLP_MATH_LOOPUNROLL
        (buf (blocks.map (fun b => plp_min_i16s_xpulpv2 PLP_MATH_LOOPUNROLL (buf b) b.length)))
        (blocks.map (fun b => plp_min_i16s_xpulpv2 PLP_MATH_LOOPUNROLL (buf b) b.length)).length =
      plp_min_i16s_xpulpv2 PLP_MATH_LOOPUNROLL (buf blocks.flatten) blocks.flatten.length := by
  have hempty : plp_min_i16s_xpulpv2 PLP_MATH_LOOPUNROLL (buf []) 0 = 0x7FFF := by
    rw [plp_min_eq_single]
    rfl
  refine ⟨?_, hempty, ?_, ?_, ?_⟩
  · rw [plp_min_eq_foldl, plp_min_eq_foldl, plp_min_eq_foldl, List.foldl_append]
    exact foldl_minStep_init w _ _ (foldl_minStep_le v _)
  · intro x hx
    rw [hempty]
    exact ⟨min_eq_right hx, min_eq_left hx⟩
  · rw [hempty, plp_min_eq_foldl]
    exact min_eq_right (foldl_minStep_le v _)
  · have hfun : (fun b : List Int => plp_min_i16s_xpulpv2 PLP_MATH_LOOPUNROLL (buf b) b.length) =
        fun b => b.foldl minStep 0x7FFF := by
      funext b
      exact plp_min_eq_foldl _ b
    rw [hfun, plp_min_eq_foldl, plp_min_eq_foldl]
    exact foldl_minStep_blocks blocks _ (le_refl _)

/-- C15, at `[7,-3] ++ [5,-3,9]` and at the partition `[[7,-3],[],[5,-3,9]]` of
`[7,-3,5,-3,9]`: the partial results are `-3`, `0x7FFF`, `-3` and the combined value is
`-3`, the value of one call on the whole vector. -/
theorem plp_min_i16s_xpulpv2_blocks_witness :
    plp_min_i16s_xpulpv2 true (buf ([7, -3] ++ [5, -3, 9])) ([7, -3] ++ [5, -3, 9]).length =
      min (plp_min_i16s_xpulpv2 true (buf [7, -3]) [7, -3].length)
        (plp_min_i16s_xpulpv2 true (buf [5, -3, 9]) [5, -3, 9].length) ∧
    [[7, -3], [], [5, -3, 9]].map (fun b => plp_min_i16s_xpulpv2 true (buf b) b.length) =
      [-3, 32767, -3] ∧
    plp_min_i16s_xpulpv2 true (buf [-3, 32767, -3]) 3 = -3 ∧
    plp_min_i16s_xpulpv2 true (buf [7, -3, 5, -3, 9]) 5 = -3 ∧
    min (plp_min_i16s_xpulpv2 true (buf []) 0) (-3) = -3 :=
  ⟨(plp_min_i16s_xpulpv2_blocks true [7, -3] [5, -3, 9] []).1, by decide, by decide, by decide,
   ((plp_min_i16s_xpulpv2_blocks true [] [] []).2.2.1 (-3) (by decide)).1⟩

/-- C16. Access bounds: for every `blockSize` the unrolled body reads exactly the elements
`src[0], ..., src[blockSize-1]`, each once and in increasing index order, of which
`2*(blockSize>>1)` in the pair loop and one more, `src[blockSize-1]`, if and only if
`blockSize` is odd; it never reads index `blockSize` or beyond; the plain body reads the
same elements in the same order. The instrumented run computes the kernel's value. -/
theorem plp_min_i16s_xpulpv2_access (pSrc : Nat → Int) (blockSize : Nat) :
    plp_min_i16s_xpulpv2_reads true pSrc blockSize = List.range blockSize ∧
    plp_min_i16s_xpulpv2_reads false pSrc blockSize = List.range blockSize ∧
    (min_pair_loop_traced pSrc blockSize).log = List.range (2 * (blockSize >>> 1)) ∧
    plp_min_i16s_xpulpv2_reads true pSrc blockSize =
      (min_pair_loop_traced pSrc blockSize).log ++
        (if blockSize % 2 = 1 then [blockSize - 1] else []) ∧
    (∀ i, i ∈ plp_min_i16s_xpulpv2_reads true pSrc blockSize → i < blockSize) ∧
    (plp_min_i16s_xpulpv2_reads true pSrc blockSize).Pairwise (fun a b => a < b) ∧
    (∀ unroll, (min_traced unroll pSrc blockSize).st.min =
      plp_min_i16s_xpulpv2 unroll pSrc blockSize) := by
  have hdiv : blockSize >>> 1 = blockSize / 2 := by
    simp [Nat.shiftRight_eq_div_pow]
  refine ⟨min_reads_eq_range _ _ _, min_reads_eq_range _ _ _, ?_, ?_, ?_, ?_, ?_⟩
  · rw [min_pair_loop_traced_eq, hdiv]
  · rw [min_reads_eq_range, min_pair_loop_traced_eq]
    by_cases h : blockSize % 2 = 1
    · have e : blockSize = 2 * (blockSize / 2) + 1 := by omega
      rw [if_pos h]
      conv_lhs => rw [e, List.range_succ]
      simp only
      congr 2
      omega
    · have e : 2 * (blockSize / 2) = blockSize := by omega
      rw [if_neg h, e, List.append_nil]
  · intro i hi
    rw [min_reads_eq_range] at hi
    exact List.mem_range.mp hi
  · rw [min_reads_eq_range]
    exact List.pairwise_lt_range blockSize
  · intro unroll
    rw [min_traced_st]
    rfl

/-- C16, at `blockSize = 5`: both bodies read `src[0..4]` in order, four of them in the
pair loop. -/
theorem plp_min_i16s_xpulpv2_access_witness :
    plp_min_i16s_xpulpv2_reads true (buf [7, -3, 5, -3, 9]) 5 = [0, 1, 2, 3, 4] ∧
    plp_min_i16s_xpulpv2_reads false (buf [7, -3, 5, -3, 9]) 5 = [0, 1, 2, 3, 4] ∧
    (min_pair_loop_traced (buf [7, -3, 5, -3, 9]) 5).log = [0, 1, 2, 3] ∧
    4 < 5 :=
  ⟨by decide, by decide, by decide,
   (plp_min_i16s_xpulpv2_access (buf [7, -3, 5, -3, 9]) 5).2.2.2.2.1 4 (by decide)⟩

/-! ## Matrix kernel: the precondition on `strideY` -/

/-- C14. The precondition `strideY ≥ N` is needed for path independence: with `M = 2`,
`N = 8`, `strideA = strideB = 8` and `strideY = 4` (so `N/2 ≤ strideY < N`) and a
12-element output buffer the two bodies leave different values. The nested loop leaves the
first four elements of row 1 at `dst[4..7]`; the row-paired body overwrites them with the
last four elements of row 0, which it writes later. -/
theorem plp_mat_add_stride_i8s_xpulpv2_strideY_needed :
    List.map (plp_mat_add_stride_i8s_xpulpv2 true overlap_srcA overlap_srcB 2 8 8 8 4
        overlap_dst) (List.range 12) = [1, 2, 3, 4, 59, 60, 61, 62, 63, 64, 65, 66] ∧
    List.map (plp_mat_add_stride_i8s_xpulpv2 false overlap_srcA overlap_srcB 2 8 8 8 4
        overlap_dst) (List.range 12) = [1, 2, 3, 4, 5, 6, 7, 8, 63, 64, 65, 66] ∧
    ∃ (srcA srcB dst : Nat → Int) (M N strideA strideB strideY : Nat),
      N ≤ strideA ∧ N ≤ strideB ∧ N / 2 ≤ strideY ∧ strideY < N ∧
      ∃ i, i < (M - 1) * strideY + N ∧
        plp_mat_add_stride_i8s_xpulpv2 false srcA srcB M N strideA strideB strideY dst i ≠
          plp_mat_add_stride_i8s_xpulpv2 true srcA srcB M N strideA strideB strideY dst i :=
  ⟨by decide, by decide,
   overlap_srcA, overlap_srcB, overlap_dst, 2, 8, 8, 8, 4,
   by decide, by decide, by decide, by decide, 4, by decide, by decide⟩


/-! ## Matrix kernel: pointers and accesses of the optimised body -/

theorem mat_add_optimised_eq_pairs (srcA srcB : Nat → Int) (M N strideA strideB strideY : Nat)
    (d : Nat → Int) :
    mat_add_optimised srcA srcB M N strideA strideB strideY d =
      if M &&& 1 ≠ 0 then
        tail_body srcA srcB (N >>> 2) (N &&& 3) (u32_sub (strideA * 2) N)
          (u32_sub (strideB * 2) N) (u32_sub (strideY * 2) N)
          (mat_add_pairs srcA srcB N strideA strideB strideY d (M >>> 1))
      else mat_add_pairs srcA srcB N strideA strideB strideY d (M >>> 1) := rfl

/-- The local state at the start of iteration `k` of the row-pair loop. -/
theorem mat_add_pairs_eq (srcA srcB : Nat → Int) (N strideA strideB strideY : Nat)
    (d : Nat → Int) (hY : N ≤ strideY) (hW : strideY < 2 ^ 32) (k : Nat) :
    mat_add_pairs srcA srcB N strideA strideB strideY d k =
      { pSrcA := u32 (2 * k * strideA), pSrcB := u32 (2 * k * strideB),
        pDst := u32 (2 * k * strideY),
        pSrcA2 := u32 ((2 * k + 1) * strideA), pSrcB2 := u32 ((2 * k + 1) * strideB),
        pDst2 := u32 ((2 * k + 1) * strideY),
        dst := rowsSeq srcA srcB N strideA strideB strideY (2 * k) d } := by
  rw [mat_add_pairs, and_three, shiftRight_two]
  exact pair_loop_eq srcA srcB N strideA strideB strideY d hY hW k

theorem mat_add_pairs_ptrsOk (srcA srcB : Nat → Int) (N strideA strideB strideY : Nat)
    (d : Nat → Int) (hY : N ≤ strideY) (hW : strideY < 2 ^ 32) (k : Nat) :
    (mat_add_pairs srcA srcB N strideA strideB strideY d k).PtrsOk := by
  rw [mat_add_pairs_eq _ _ _ _ _ _ _ hY hW]
  exact ⟨u32_lt _, u32_lt _, u32_lt _, u32_lt _, u32_lt _, u32_lt _⟩

/-- The pointers after one run of the body of the row-pair loop: each has passed the `N`
elements of its row and then the step. -/
theorem pair_body_ptrs (srcA srcB : Nat → Int) (N step_a step_b step_y : Nat)
    (s : MatAddState) (hs : s.PtrsOk) :
    (pair_body srcA srcB (N / 4) (N % 4) step_a step_b step_y s).pSrcA =
      ptrAdd (ptrAdd s.pSrcA N) step_a ∧
    (pair_body srcA srcB (N / 4) (N % 4) step_a step_b step_y s).pSrcB =
      ptrAdd (ptrAdd s.pSrcB N) step_b ∧
    (pair_body srcA srcB (N / 4) (N % 4) step_a step_b step_y s).pDst =
      ptrAdd (ptrAdd s.pDst N) step_y ∧
    (pair_body srcA srcB (N / 4) (N % 4) step_a step_b step_y s).pSrcA2 =
      ptrAdd (ptrAdd s.pSrcA2 N) step_a ∧
    (pair_body srcA srcB (N / 4) (N % 4) step_a step_b step_y s).pSrcB2 =
      ptrAdd (ptrAdd s.pSrcB2 N) step_b ∧
    (pair_body srcA srcB (N / 4) (N % 4) step_a step_b step_y s).pDst2 =
      ptrAdd (ptrAdd s.pDst2 N) step_y := by
  have hN : 4 * (N / 4) + N % 4 = N := by omega
  have hs1 : ((pair_v4s_body srcA srcB)^[N / 4] s).PtrsOk := by
    rw [pair_v4s_iterate _ _ _ _ hs]
    exact ⟨ptrAdd_lt _ _, ptrAdd_lt _ _, ptrAdd_lt _ _, ptrAdd_lt _ _, ptrAdd_lt _ _,
      ptrAdd_lt _ _⟩
  unfold pair_body
  rw [pair_rem_iterate _ _ _ _ hs1, pair_v4s_iterate _ _ _ _ hs]
  simp only [pair_step, ptrAdd_ptrAdd, hN, and_self]

theorem mem_lanes_map (c : Nat → Access) (p : Nat) (hp : p < 2 ^ 32) (e : Access)
    (he : e ∈ (v4s_lanes p).map c) : ∃ l, l < 4 ∧ e = c (ptrAdd p l) := by
  simp only [v4s_lanes, List.map_cons, List.map_nil, List.mem_cons, List.mem_singleton,
    List.not_mem_nil, or_false] at he
  rcases he with h | h | h | h
  · exact ⟨0, by omega, by rw [ptrAdd_zero p hp]; exact h⟩
  · exact ⟨1, by omega, h⟩
  · exact ⟨2, by omega, h⟩
  · exact ⟨3, by omega, h⟩

theorem rowAccess_shift (pA pB pD a c N : Nat) (e : Access)
    (h : RowAccess (ptrAdd pA a) (ptrAdd pB a) (ptrAdd pD a) c e) (hN : a + c ≤ N) :
    RowAccess pA pB pD N e := by
  obtain ⟨n, hn, h⟩ := h
  refine ⟨a + n, by omega, ?_⟩
  simpa only [ptrAdd_ptrAdd] using h

theorem rowAccess_zero (pA pB pD N : Nat) (e : Access) (hA : pA < 2 ^ 32)
    (hB : pB < 2 ^ 32) (hD : pD < 2 ^ 32) (hN : 0 < N)
    (h : e = Access.readA pA ∨ e = Access.readB pB ∨ e = Access.write pD) :
    RowAccess pA pB pD N e := by
  refine ⟨0, hN, ?_⟩
  rw [ptrAdd_zero pA hA, ptrAdd_zero pB hB, ptrAdd_zero pD hD]
  exact h

theorem mem_tail_v4s_accesses (s : MatAddState) (e : Access) (hA : s.pSrcA < 2 ^ 32)
    (hB : s.pSrcB < 2 ^ 32) (hD : s.pDst < 2 ^ 32) (he : e ∈ tail_v4s_accesses s) :
    RowAccess s.pSrcA s.pSrcB s.pDst 4 e := by
  simp only [tail_v4s_accesses, List.mem_append] at he
  rcases he with (h | h) | h
  · obtain ⟨l, hl, h⟩ := mem_lanes_map _ _ hA _ h
    exact ⟨l, hl, Or.inl h⟩
  · obtain ⟨l, hl, h⟩ := mem_lanes_map _ _ hB _ h
    exact ⟨l, hl, Or.inr (Or.inl h)⟩
  · obtain ⟨l, hl, h⟩ := mem_lanes_map _ _ hD _ h
    exact ⟨l, hl, Or.inr (Or.inr h)⟩

theorem mem_tail_rem_accesses (s : MatAddState) (e : Access) (hA : s.pSrcA < 2 ^ 32)
    (hB : s.pSrcB < 2 ^ 32) (hD : s.pDst < 2 ^ 32) (he : e ∈ tail_rem_accesses s) :
    RowAccess s.pSrcA s.pSrcB s.pDst 1 e := by
  simp only [tail_rem_accesses, List.mem_cons, List.mem_singleton, List.not_mem_nil,
    or_false] at he
  exact rowAccess_zero _ _ _ _ _ hA hB hD (by omega) he

theorem mem_pair_v4s_accesses (s : MatAddState) (e : Access) (hs : s.PtrsOk)
    (he : e ∈ pair_v4s_accesses s) :
    RowAccess s.pSrcA s.pSrcB s.pDst 4 e ∨ RowAccess s.pSrcA2 s.pSrcB2 s.pDst2 4 e := by
  obtain ⟨h1, h2, h3, h4, h5, h6⟩ := hs
  simp only [pair_v4s_accesses, List.mem_append] at he
  rcases he with ((((h | h) | h) | h) | h) | h
  · obtain ⟨l, hl, h⟩ := mem_lanes_map _ _ h1 _ h
    exact Or.inl ⟨l, hl, Or.inl h⟩
  · obtain ⟨l, hl, h⟩ := mem_lanes_map _ _ h2 _ h
    exact Or.inl ⟨l, hl, Or.inr (Or.inl h)⟩
  · obtain ⟨l, hl, h⟩ := mem_lanes_map _ _ h4 _ h
    exact Or.inr ⟨l, hl, Or.inl h⟩
  · obtain ⟨l, hl, h⟩ := mem_lanes_map _ _ h5 _ h
    exact Or.inr ⟨l, hl, Or.inr (Or.inl h)⟩
  · obtain ⟨l, hl, h⟩ := mem_lanes_map _ _ h3 _ h
    exact Or.inl ⟨l, hl, Or.inr (Or.inr h)⟩
  · obtain ⟨l, hl, h⟩ := mem_lanes_map _ _ h6 _ h
    exact Or.inr ⟨l, hl, Or.inr (Or.inr h)⟩

theorem mem_pair_rem_accesses (s : MatAddState) (e : Access) (hs : s.PtrsOk)
    (he : e ∈ pair_rem_accesses s) :
    RowAccess s.pSrcA s.pSrcB s.pDst 1 e ∨ RowAccess s.pSrcA2 s.pSrcB2 s.pDst2 1 e := by
  obtain ⟨h1, h2, h3, h4, h5, h6⟩ := hs
  simp only [pair_rem_accesses, List.mem_cons, List.mem_singleton, List.not_mem_nil,
    or_false] at he
  rcases he with h | h | h | h | h | h
  · exact Or.inl (rowAccess_zero _ _ _ _ _ h1 h2 h3 (by omega) (Or.inl h))
  · exact Or.inl (rowAccess_zero _ _ _ _ _ h1 h2 h3 (by omega) (Or.inr (Or.inl h)))
  · exact Or.inl (rowAccess_zero _ _ _ _ _ h1 h2 h3 (by omega) (Or.inr (Or.inr h)))
  · exact Or.inr (rowAccess_zero _ _ _ _ _ h4 h5 h6 (by omega) (Or.inl h))
  · exact Or.inr (rowAccess_zero _ _ _ _ _ h4 h5 h6 (by omega) (Or.inr (Or.inl h)))
  · exact Or.inr (rowAccess_zero _ _ _ _ _ h4 h5 h6 (by omega) (Or.inr (Or.inr h)))


theorem mem_tail_v4s_iterLog (srcA srcB : Nat → Int) (k : Nat) (s : MatAddState) (e : Access)
    (hA : s.pSrcA < 2 ^ 32) (hB : s.pSrcB < 2 ^ 32) (hD : s.pDst < 2 ^ 32)
    (he : e ∈ iterLog (tail_v4s_body srcA srcB) tail_v4s_accesses k s) :
    RowAccess s.pSrcA s.pSrcB s.pDst (4 * k) e := by
  obtain ⟨i, hi, h⟩ := (mem_iterLog _ _ _ _ _).mp he
  rw [tail_v4s_iterate _ _ _ _ hA hB hD] at h
  have h4 := mem_tail_v4s_accesses _ e (ptrAdd_lt _ _) (ptrAdd_lt _ _) (ptrAdd_lt _ _) h
  exact rowAccess_shift _ _ _ (4 * i) 4 _ _ h4 (by omega)

theorem mem_tail_rem_iterLog (srcA srcB : Nat → Int) (k : Nat) (s : MatAddState) (e : Access)
    (hA : s.pSrcA < 2 ^ 32) (hB : s.pSrcB < 2 ^ 32) (hD : s.pDst < 2 ^ 32)
    (he : e ∈ iterLog (tail_rem_body srcA srcB) tail_rem_accesses k s) :
    RowAccess s.pSrcA s.pSrcB s.pDst k e := by
  obtain ⟨i, hi, h⟩ := (mem_iterLog _ _ _ _ _).mp he
  rw [tail_rem_iterate _ _ _ _ hA hB hD] at h
  have h1 := mem_tail_rem_accesses _ e (ptrAdd_lt _ _) (ptrAdd_lt _ _) (ptrAdd_lt _ _) h
  exact rowAccess_shift _ _ _ i 1 _ _ h1 (by omega)

theorem mem_pair_v4s_iterLog (srcA srcB : Nat → Int) (k : Nat) (s : MatAddState) (e : Access)
    (hs : s.PtrsOk)
    (he : e ∈ iterLog (pair_v4s_body srcA srcB) pair_v4s_accesses k s) :
    RowAccess s.pSrcA s.pSrcB s.pDst (4 * k) e ∨
      RowAccess s.pSrcA2 s.pSrcB2 s.pDst2 (4 * k) e := by
  obtain ⟨i, hi, h⟩ := (mem_iterLog _ _ _ _ _).mp he
  rw [pair_v4s_iterate _ _ _ _ hs] at h
  rcases mem_pair_v4s_accesses _ e
      ⟨ptrAdd_lt _ _, ptrAdd_lt _ _, ptrAdd_lt _ _, ptrAdd_lt _ _, ptrAdd_lt _ _,
        ptrAdd_lt _ _⟩ h with h4 | h4
  · exact Or.inl (rowAccess_shift _ _ _ (4 * i) 4 _ _ h4 (by omega))
  · exact Or.inr (rowAccess_shift _ _ _ (4 * i) 4 _ _ h4 (by omega))

theorem mem_pair_rem_iterLog (srcA srcB : Nat → Int) (k : Nat) (s : MatAddState) (e : Access)
    (hs : s.PtrsOk)
    (he : e ∈ iterLog (pair_rem_body srcA srcB) pair_rem_accesses k s) :
    RowAccess s.pSrcA s.pSrcB s.pDst k e ∨ RowAccess s.pSrcA2 s.pSrcB2 s.pDst2 k e := by
  obtain ⟨i, hi, h⟩ := (mem_iterLog _ _ _ _ _).mp he
  rw [pair_rem_iterate _ _ _ _ hs] at h
  rcases mem_pair_rem_accesses _ e
      ⟨ptrAdd_lt _ _, ptrAdd_lt _ _, ptrAdd_lt _ _, ptrAdd_lt _ _, ptrAdd_lt _ _,
        ptrAdd_lt _ _⟩ h with h1 | h1
  · exact Or.inl (rowAccess_shift _ _ _ i 1 _ _ h1 (by omega))
  · exact Or.inr (rowAccess_shift _ _ _ i 1 _ _ h1 (by omega))

/-- Every access of the tail pass touches one of the `N` elements of its row. -/
theorem mem_tail_body_accesses (srcA srcB : Nat → Int) (N : Nat) (s : MatAddState)
    (e : Access) (hA : s.pSrcA < 2 ^ 32) (hB : s.pSrcB < 2 ^ 32) (hD : s.pDst < 2 ^ 32)
    (he : e ∈ tail_body_accesses srcA srcB (N / 4) (N % 4) s) :
    RowAccess s.pSrcA s.pSrcB s.pDst N e := by
  rw [tail_body_accesses, List.mem_append] at he
  rcases he with h | h
  · have h4 := mem_tail_v4s_iterLog _ _ _ _ _ hA hB hD h
    obtain ⟨n, hn, h4⟩ := h4
    exact ⟨n, by omega, h4⟩
  · have hr := mem_tail_rem_iterLog _ _ _ _ _ (by rw [tail_v4s_iterate _ _ _ _ hA hB hD]; exact ptrAdd_lt _ _)
      (by rw [tail_v4s_iterate _ _ _ _ hA hB hD]; exact ptrAdd_lt _ _)
      (by rw [tail_v4s_iterate _ _ _ _ hA hB hD]; exact ptrAdd_lt _ _) h
    rw [tail_v4s_iterate _ _ _ _ hA hB hD] at hr
    exact rowAccess_shift _ _ _ (4 * (N / 4)) (N % 4) _ _ hr (by omega)

/-- Every access of the body of the row-pair loop touches one of the `N` elements of one
of its two rows. -/
theorem mem_pair_body_accesses (srcA srcB : Nat → Int) (N : Nat) (s : MatAddState)
    (e : Access) (hs : s.PtrsOk)
    (he : e ∈ pair_body_accesses srcA srcB (N / 4) (N % 4) s) :
    RowAccess s.pSrcA s.pSrcB s.pDst N e ∨ RowAccess s.pSrcA2 s.pSrcB2 s.pDst2 N e := by
  rw [pair_body_accesses, List.mem_append] at he
  rcases he with h | h
  · rcases mem_pair_v4s_iterLog _ _ _ _ _ hs h with ⟨n, hn, h4⟩ | ⟨n, hn, h4⟩
    · exact Or.inl ⟨n, by omega, h4⟩
    · exact Or.inr ⟨n, by omega, h4⟩
  · have hs1 : ((pair_v4s_body srcA srcB)^[N / 4] s).PtrsOk := by
      rw [pair_v4s_iterate _ _ _ _ hs]
      exact ⟨ptrAdd_lt _ _, ptrAdd_lt _ _, ptrAdd_lt _ _, ptrAdd_lt _ _, ptrAdd_lt _ _,
        ptrAdd_lt _ _⟩
    have hr := mem_pair_rem_iterLog _ _ _ _ _ hs1 h
    rw [pair_v4s_iterate _ _ _ _ hs] at hr
    rcases hr with hr | hr
    · exact Or.inl (rowAccess_shift _ _ _ (4 * (N / 4)) (N % 4) _ _ hr (by omega))
    · exact Or.inr (rowAccess_shift _ _ _ (4 * (N / 4)) (N % 4) _ _ hr (by omega))

theorem pair_body_traced_eq (srcA srcB : Nat → Int) (n_iter n_rem step_a step_b step_y : Nat) :
    pair_body_traced srcA srcB n_iter n_rem step_a step_b step_y =
      Traced.step (pair_body srcA srcB n_iter n_rem step_a step_b step_y)
        (pair_body_accesses srcA srcB n_iter n_rem) := by
  funext t
  simp [pair_body_traced, traced_iterate, Traced.step, pair_body, pair_body_accesses,
    List.append_assoc]

theorem tail_body_traced_eq (srcA srcB : Nat → Int) (n_iter n_rem step_a step_b step_y : Nat) :
    tail_body_traced srcA srcB n_iter n_rem step_a step_b step_y =
      Traced.step (tail_body srcA srcB n_iter n_rem step_a step_b step_y)
        (tail_body_accesses srcA srcB n_iter n_rem) := by
  funext t
  simp [tail_body_traced, traced_iterate, Traced.step, tail_body, tail_body_accesses,
    List.append_assoc]

theorem mat_add_pairs_traced_eq (srcA srcB : Nat → Int) (M N strideA strideB strideY : Nat)
    (d : Nat → Int) :
    mat_add_pairs_traced srcA srcB M N strideA strideB strideY d =
      ⟨mat_add_pairs srcA srcB N strideA strideB strideY d (M >>> 1),
        iterLog (pair_body srcA srcB (N >>> 2) (N &&& 3) (u32_sub (strideA * 2) N)
          (u32_sub (strideB * 2) N) (u32_sub (strideY * 2) N))
          (pair_body_accesses srcA srcB (N >>> 2) (N &&& 3)) (M >>> 1)
          (mat_add_init strideA strideB strideY d)⟩ := by
  rw [mat_add_pairs_traced, pair_body_traced_eq, traced_iterate]
  simp [mat_add_pairs]

/-- The instrumented run computes the state of the plain embedding. -/
theorem mat_add_optimised_traced_st (srcA srcB : Nat → Int)
    (M N strideA strideB strideY : Nat) (d : Nat → Int) :
    (mat_add_optimised_traced srcA srcB M N strideA strideB strideY d).st =
      mat_add_optimised srcA srcB M N strideA strideB strideY d := by
  rw [mat_add_optimised_eq_pairs]
  simp only [mat_add_optimised_traced, mat_add_pairs_traced_eq, tail_body_traced_eq]
  split_ifs <;> rfl

theorem rowAccess_row (strideA strideB strideY N m : Nat) (e : Access)
    (h : RowAccess (u32 (m * strideA)) (u32 (m * strideB)) (u32 (m * strideY)) N e) :
    ∃ n, n < N ∧
      (e = Access.readA (u32 (m * strideA + n)) ∨ e = Access.readB (u32 (m * strideB + n)) ∨
        e = Access.write (u32 (m * strideY + n))) := by
  obtain ⟨n, hn, h⟩ := h
  have e1 : ∀ x : Nat, ptrAdd (u32 x) n = u32 (x + n) := by
    intro x
    unfold ptrAdd u32
    omega
  rw [e1, e1, e1] at h
  exact ⟨n, hn, h⟩

/-- Every access of the row-pair loop touches an element `(m, n)` with `m < 2*(M/2)`. -/
theorem mem_pairs_log (srcA srcB : Nat → Int) (M N strideA strideB strideY : Nat)
    (d : Nat → Int) (hY : N ≤ strideY) (hW : strideY < 2 ^ 32) (e : Access)
    (he : e ∈ (mat_add_pairs_traced srcA srcB M N strideA strideB strideY d).log) :
    ∃ m n, m < 2 * (M / 2) ∧ n < N ∧
      (e = Access.readA (u32 (m * strideA + n)) ∨ e = Access.readB (u32 (m * strideB + n)) ∨
        e = Access.write (u32 (m * strideY + n))) := by
  rw [mat_add_pairs_traced_eq] at he
  obtain ⟨j, hj, h⟩ := (mem_iterLog _ _ _ _ _).mp he
  have hst : (pair_body srcA srcB (N >>> 2) (N &&& 3) (u32_sub (strideA * 2) N)
      (u32_sub (strideB * 2) N) (u32_sub (strideY * 2) N))^[j]
      (mat_add_init strideA strideB strideY d) =
      mat_add_pairs srcA srcB N strideA strideB strideY d j := rfl
  rw [hst, and_three, shiftRight_two] at h
  rw [shiftRight_one] at hj
  have hr := mem_pair_body_accesses _ _ _ _ _ (mat_add_pairs_ptrsOk _ _ _ _ _ _ _ hY hW j) h
  rw [mat_add_pairs_eq _ _ _ _ _ _ _ hY hW] at hr
  rcases hr with hr | hr
  · obtain ⟨n, hn, hr⟩ := rowAccess_row _ _ _ _ _ _ hr
    exact ⟨2 * j, n, by omega, hn, hr⟩
  · obtain ⟨n, hn, hr⟩ := rowAccess_row _ _ _ _ _ _ hr
    exact ⟨2 * j + 1, n, by omega, hn, hr⟩

/-- Every access of the tail pass touches an element of row `2*(M/2)`. -/
theorem mem_tail_log (srcA srcB : Nat → Int) (M N strideA strideB strideY : Nat)
    (d : Nat → Int) (hY : N ≤ strideY) (hW : strideY < 2 ^ 32) (e : Access)
    (he : e ∈ mat_add_tail_accesses srcA srcB M N strideA strideB strideY d) :
    ∃ n, n < N ∧
      (e = Access.readA (u32 (2 * (M / 2) * strideA + n)) ∨
        e = Access.readB (u32 (2 * (M / 2) * strideB + n)) ∨
        e = Access.write (u32 (2 * (M / 2) * strideY + n))) := by
  simp only [mat_add_tail_accesses, tail_body_traced_eq, mat_add_pairs_traced_eq, Traced.step,
    List.nil_append, and_three, shiftRight_two, shiftRight_one] at he
  have hok := mat_add_pairs_ptrsOk srcA srcB N strideA strideB strideY d hY hW (M / 2)
  have hr := mem_tail_body_accesses _ _ _ _ _ hok.1 hok.2.1 hok.2.2.1 he
  rw [mat_add_pairs_eq _ _ _ _ _ _ _ hY hW] at hr
  exact rowAccess_row _ _ _ _ _ _ hr

theorem mat_add_optimised_traced_log (srcA srcB : Nat → Int)
    (M N strideA strideB strideY : Nat) (d : Nat → Int) :
    (mat_add_optimised_traced srcA srcB M N strideA strideB strideY d).log =
      (mat_add_pairs_traced srcA srcB M N strideA strideB strideY d).log ++
        (if M % 2 = 1 then mat_add_tail_accesses srcA srcB M N strideA strideB strideY d
         else []) := by
  simp only [mat_add_optimised_traced, mat_add_tail_accesses, tail_body_traced_eq,
    Nat.and_one_is_mod, Traced.step, List.nil_append]
  by_cases h : M % 2 = 1
  · rw [if_pos h, if_pos (by omega)]
  · rw [if_neg h, if_neg (by omega), List.append_nil]

/-- Every access of the optimised body touches an element `(m, n)` of the `M x N`
matrix. -/
theorem mem_optimised_log (srcA srcB : Nat → Int) (M N strideA strideB strideY : Nat)
    (d : Nat → Int) (hY : N ≤ strideY) (hW : strideY < 2 ^ 32) (e : Access)
    (he : e ∈ (mat_add_optimised_traced srcA srcB M N strideA strideB strideY d).log) :
    ∃ m n, m < M ∧ n < N ∧
      (e = Access.readA (u32 (m * strideA + n)) ∨ e = Access.readB (u32 (m * strideB + n)) ∨
        e = Access.write (u32 (m * strideY + n))) := by
  rw [mat_add_optimised_traced_log, List.mem_append] at he
  rcases he with h | h
  · obtain ⟨m, n, hm, hn, h⟩ := mem_pairs_log _ _ _ _ _ _ _ _ hY hW e h
    exact ⟨m, n, by omega, hn, h⟩
  · by_cases hodd : M % 2 = 1
    · rw [if_pos hodd] at h
      obtain ⟨n, hn, h⟩ := mem_tail_log _ _ _ _ _ _ _ _ hY hW e h
      exact ⟨2 * (M / 2), n, by omega, hn, h⟩
    · rw [if_neg hodd] at h
      exact absurd h (List.not_mem_nil _)


theorem u32_sub_eq (s N : Nat) (h : N ≤ s * 2) :
    u32_sub (s * 2) N = u32 (s * 2 - N) := by
  unfold u32_sub u32
  omega

theorem fit_index (M N s m n : Nat) (hfit : (M - 1) * s + N ≤ 2 ^ 32) (hm : m < M)
    (hn : n < N) : u32 (m * s + n) = m * s + n ∧ m * s + n < (M - 1) * s + N := by
  have h1 : m * s ≤ (M - 1) * s := Nat.mul_le_mul_right _ (by omega)
  refine ⟨Nat.mod_eq_of_lt (by omega), by omega⟩

theorem last_row_le (M N s : Nat) (hM : 0 < M) (hs : N ≤ s) : (M - 1) * s + N ≤ M * s := by
  obtain ⟨k, rfl⟩ : ∃ k, M = k + 1 := ⟨M - 1, by omega⟩
  rw [Nat.add_sub_cancel, Nat.succ_mul]
  omega

/-! ## Matrix kernel: stride compensation and access bounds -/

/-- C12, refuted as stated: for `M = N = 1` and all strides 1 the tail pass starts at row 0
(offset 0); after this one-row group the claim puts each pointer `stride*1 - N = 0` beyond
the one element consumed, at offset 1, the start of row 1; the code adds the two-row step
`stride*2 - N = 1`, so the three pointers end at offset 2. -/
theorem mat_add_tail_step_not_one_row :
    (mat_add_pairs (buf []) (buf []) 1 1 1 1 (buf []) (1 >>> 1)).pDst = 0 ∧
    ptrAdd (ptrAdd 0 1) (u32_sub (1 * 1) 1) = 1 ∧
    (mat_add_optimised (buf []) (buf []) 1 1 1 1 1 (buf [])).pSrcA = 2 ∧
    (mat_add_optimised (buf []) (buf []) 1 1 1 1 1 (buf [])).pSrcB = 2 ∧
    (mat_add_optimised (buf []) (buf []) 1 1 1 1 1 (buf [])).pDst = 2 ∧
    ¬ ((mat_add_optimised (buf []) (buf []) 1 1 1 1 1 (buf [])).pDst =
        ptrAdd (ptrAdd (mat_add_pairs (buf []) (buf []) 1 1 1 1 (buf []) (1 >>> 1)).pDst 1)
          (u32_sub (1 * 1) 1)) := by
  decide

/-- C12, amended. The three steps are `stride*2 - N` (as `uint32_t`). With strides `≥ N`,
at the start of pair iteration `k` (`0 ≤ k ≤ M/2`) the primary pointers are at element
offsets `2k*stride` and the secondary pointers at `(2k+1)*stride` of their buffers, taken
modulo `2^32`, and exactly there when `(2k+1)*stride < 2^32`; when `M` is odd the tail pass
starts at the start of row `M-1`. After each iteration of the row-pair loop every pointer
has advanced by `stride*2 - N` beyond the `N` elements consumed, which is the start of the
next row it handles. -/
theorem plp_mat_add_stride_i8s_xpulpv2_stride_compensation (pSrcA pSrcB : Nat → Int)
    (M N strideA strideB strideY : Nat) (pDst : Nat → Int)
    (hA : N ≤ strideA) (hB : N ≤ strideB) (hY : N ≤ strideY) (hW : strideY < 2 ^ 32) :
    (u32_sub (strideA * 2) N = u32 (strideA * 2 - N) ∧
      u32_sub (strideB * 2) N = u32 (strideB * 2 - N) ∧
      u32_sub (strideY * 2) N = u32 (strideY * 2 - N)) ∧
    (∀ k, k ≤ M / 2 →
      (mat_add_pairs pSrcA pSrcB N strideA strideB strideY pDst k).pSrcA =
        u32 (2 * k * strideA) ∧
      (mat_add_pairs pSrcA pSrcB N strideA strideB strideY pDst k).pSrcB =
        u32 (2 * k * strideB) ∧
      (mat_add_pairs pSrcA pSrcB N strideA strideB strideY pDst k).pDst =
        u32 (2 * k * strideY) ∧
      (mat_add_pairs pSrcA pSrcB N strideA strideB strideY pDst k).pSrcA2 =
        u32 ((2 * k + 1) * strideA) ∧
      (mat_add_pairs pSrcA pSrcB N strideA strideB strideY pDst k).pSrcB2 =
        u32 ((2 * k + 1) * strideB) ∧
      (mat_add_pairs pSrcA pSrcB N strideA strideB strideY pDst k).pDst2 =
        u32 ((2 * k + 1) * strideY)) ∧
    (∀ k, k ≤ M / 2 → (2 * k + 1) * strideA < 2 ^ 32 → (2 * k + 1) * strideB < 2 ^ 32 →
      (2 * k + 1) * strideY < 2 ^ 32 →
      (mat_add_pairs pSrcA pSrcB N strideA strideB strideY pDst k).pSrcA = 2 * k * strideA ∧
      (mat_add_pairs pSrcA pSrcB N strideA strideB strideY pDst k).pSrcB = 2 * k * strideB ∧
      (mat_add_pairs pSrcA pSrcB N strideA strideB strideY pDst k).pDst = 2 * k * strideY ∧
      (mat_add_pairs pSrcA pSrcB N strideA strideB strideY pDst k).pSrcA2 =
        (2 * k + 1) * strideA ∧
      (mat_add_pairs pSrcA pSrcB N strideA strideB strideY pDst k).pSrcB2 =
        (2 * k + 1) * strideB ∧
      (mat_add_pairs pSrcA pSrcB N strideA strideB strideY pDst k).pDst2 =
        (2 * k + 1) * strideY) ∧
    (M % 2 = 1 →
      mat_add_optimised pSrcA pSrcB M N strideA strideB strideY pDst =
        tail_body pSrcA pSrcB (N >>> 2) (N &&& 3) (u32_sub (strideA * 2) N)
          (u32_sub (strideB * 2) N) (u32_sub (strideY * 2) N)
          (mat_add_pairs pSrcA pSrcB N strideA strideB strideY pDst (M >>> 1)) ∧
      (mat_add_pairs pSrcA pSrcB N strideA strideB strideY pDst (M >>> 1)).pSrcA =
        u32 ((M - 1) * strideA) ∧
      (mat_add_pairs pSrcA pSrcB N strideA strideB strideY pDst (M >>> 1)).pSrcB =
        u32 ((M - 1) * strideB) ∧
      (mat_add_pairs pSrcA pSrcB N strideA strideB strideY pDst (M >>> 1)).pDst =
        u32 ((M - 1) * strideY)) ∧
    (∀ k,
      (mat_add_pairs pSrcA pSrcB N strideA strideB strideY pDst (k + 1)).pSrcA =
        ptrAdd (ptrAdd (mat_add_pairs pSrcA pSrcB N strideA strideB strideY pDst k).pSrcA N)
          (u32 (strideA * 2 - N)) ∧
      (mat_add_pairs pSrcA pSrcB N strideA strideB strideY pDst (k + 1)).pSrcB =
        ptrAdd (ptrAdd (mat_add_pairs pSrcA pSrcB N strideA strideB strideY pDst k).pSrcB N)
          (u32 (strideB * 2 - N)) ∧
      (mat_add_pairs pSrcA pSrcB N strideA strideB strideY pDst (k + 1)).pDst =
        ptrAdd (ptrAdd (mat_add_pairs pSrcA pSrcB N strideA strideB strideY pDst k).pDst N)
          (u32 (strideY * 2 - N)) ∧
      (mat_add_pairs pSrcA pSrcB N strideA strideB strideY pDst (k + 1)).pSrcA2 =
        ptrAdd (ptrAdd (mat_add_pairs pSrcA pSrcB N strideA strideB strideY pDst k).pSrcA2 N)
          (u32 (strideA * 2 - N)) ∧
      (mat_add_pairs pSrcA pSrcB N strideA strideB strideY pDst (k + 1)).pSrcB2 =
        ptrAdd (ptrAdd (mat_add_pairs pSrcA pSrcB N strideA strideB strideY pDst k).pSrcB2 N)
          (u32 (strideB * 2 - N)) ∧
      (mat_add_pairs pSrcA pSrcB N strideA strideB strideY pDst (k + 1)).pDst2 =
        ptrAdd (ptrAdd (mat_add_pairs pSrcA pSrcB N strideA strideB strideY pDst k).pDst2 N)
          (u32 (strideY * 2 - N))) := by
  have hsA := u32_sub_eq strideA N (by omega)
  have hsB := u32_sub_eq strideB N (by omega)
  have hsY := u32_sub_eq strideY N (by omega)
  have hinv : ∀ k,
      (mat_add_pairs pSrcA pSrcB N strideA strideB strideY pDst k).pSrcA =
        u32 (2 * k * strideA) ∧
      (mat_add_pairs pSrcA pSrcB N strideA strideB strideY pDst k).pSrcB =
        u32 (2 * k * strideB) ∧
      (mat_add_pairs pSrcA pSrcB N strideA strideB strideY pDst k).pDst =
        u32 (2 * k * strideY) ∧
      (mat_add_pairs pSrcA pSrcB N strideA strideB strideY pDst k).pSrcA2 =
        u32 ((2 * k + 1) * strideA) ∧
      (mat_add_pairs pSrcA pSrcB N strideA strideB strideY pDst k).pSrcB2 =
        u32 ((2 * k + 1) * strideB) ∧
      (mat_add_pairs pSrcA pSrcB N strideA strideB strideY pDst k).pDst2 =
        u32 ((2 * k + 1) * strideY) := by
    intro k
    rw [mat_add_pairs_eq _ _ _ _ _ _ _ hY hW]
    exact ⟨rfl, rfl, rfl, rfl, rfl, rfl⟩
  refine ⟨⟨hsA, hsB, hsY⟩, fun k _ => hinv k, ?_, ?_, ?_⟩
  · intro k _ hkA hkB hkY
    obtain ⟨h1, h2, h3, h4, h5, h6⟩ := hinv k
    have e1 : ∀ s : Nat, (2 * k + 1) * s = 2 * k * s + s := fun s => by ring
    rw [e1] at hkA hkB hkY
    rw [h1, h2, h3, h4, h5, h6]
    simp only [e1]
    unfold u32
    refine ⟨?_, ?_, ?_, ?_, ?_, ?_⟩ <;> omega
  · intro hodd
    have e : M - 1 = 2 * (M / 2) := by omega
    obtain ⟨h1, h2, h3, _, _, _⟩ := hinv (M >>> 1)
    rw [shiftRight_one] at h1 h2 h3
    refine ⟨?_, ?_, ?_, ?_⟩
    · rw [mat_add_optimised_eq_pairs, Nat.and_one_is_mod, if_pos (by omega)]
    · rw [shiftRight_one, e]; exact h1
    · rw [shiftRight_one, e]; exact h2
    · rw [shiftRight_one, e]; exact h3
  · intro k
    have hstep : mat_add_pairs pSrcA pSrcB N strideA strideB strideY pDst (k + 1) =
        pair_body pSrcA pSrcB (N / 4) (N % 4) (u32_sub (strideA * 2) N)
          (u32_sub (strideB * 2) N) (u32_sub (strideY * 2) N)
          (mat_add_pairs pSrcA pSrcB N strideA strideB strideY pDst k) := by
      simp only [mat_add_pairs, Function.iterate_succ_apply', and_three, shiftRight_two]
    rw [hstep, ← hsA, ← hsB, ← hsY]
    exact pair_body_ptrs _ _ _ _ _ _ _ (mat_add_pairs_ptrsOk _ _ _ _ _ _ _ hY hW k)

/-- C12 amended, at a 3 x 5 matrix with strides 7, 7 and 6: after the one pair iteration
the primary pointers are at the start of row 2, offsets 14, 14 and 12, where the tail pass
starts. -/
theorem plp_mat_add_stride_i8s_xpulpv2_stride_compensation_witness :
    (mat_add_pairs (buf []) (buf []) 5 7 7 6 (buf []) 1).pSrcA = 2 * 1 * 7 ∧
    (mat_add_pairs (buf []) (buf []) 5 7 7 6 (buf []) 1).pSrcB = 2 * 1 * 7 ∧
    (mat_add_pairs (buf []) (buf []) 5 7 7 6 (buf []) 1).pDst = 2 * 1 * 6 :=
  have h := (plp_mat_add_stride_i8s_xpulpv2_stride_compensation (buf []) (buf []) 3 5 7 7 6
    (buf []) (by decide) (by decide) (by decide) (by decide)).2.2.1 1 (by decide) (by decide)
    (by decide) (by decide)
  ⟨h.1, h.2.1, h.2.2.1⟩


/-- C13. Access bounds of the optimised body, for strides `≥ N`: every element it reads
from `srcA` or `srcB` or writes to `dst`, all four lanes of the packed accesses and the
second-row pointers included, has the index `m*stride + n` (the `uint32_t` value) of an
element with `m < M` and `n < N`. When buffers of `(M-1)*stride + N` elements fit the
address space the index is `m*stride + n` itself, lies below `(M-1)*stride + N`, and is
never in row `M`. For odd `M` the accesses are those of the row-pair loop, which stay in
rows `0 .. M-2`, followed by those of the tail pass, which stay in row `M-1`. The
instrumented run computes the state of the optimised body. -/
theorem plp_mat_add_stride_i8s_xpulpv2_access (pSrcA pSrcB : Nat → Int)
    (M N strideA strideB strideY : Nat) (pDst : Nat → Int)
    (hA : N ≤ strideA) (hB : N ≤ strideB) (hY : N ≤ strideY) (hW : strideY < 2 ^ 32) :
    (∀ e, e ∈ (mat_add_optimised_traced pSrcA pSrcB M N strideA strideB strideY pDst).log →
      ∃ m n, m < M ∧ n < N ∧
        (e = Access.readA (u32 (m * strideA + n)) ∨ e = Access.readB (u32 (m * strideB + n)) ∨
          e = Access.write (u32 (m * strideY + n)))) ∧
    ((M - 1) * strideA + N ≤ 2 ^ 32 → (M - 1) * strideB + N ≤ 2 ^ 32 →
      (M - 1) * strideY + N ≤ 2 ^ 32 →
      (∀ e, e ∈ (mat_add_optimised_traced pSrcA pSrcB M N strideA strideB strideY pDst).log →
        ∃ m n, m < M ∧ n < N ∧
          (e = Access.readA (m * strideA + n) ∨ e = Access.readB (m * strideB + n) ∨
            e = Access.write (m * strideY + n))) ∧
      (∀ i, Access.readA i ∈
          (mat_add_optimised_traced pSrcA pSrcB M N strideA strideB strideY pDst).log →
        i < (M - 1) * strideA + N ∧ i < M * strideA) ∧
      (∀ i, Access.readB i ∈
          (mat_add_optimised_traced pSrcA pSrcB M N strideA strideB strideY pDst).log →
        i < (M - 1) * strideB + N ∧ i < M * strideB) ∧
      (∀ i, Access.write i ∈
          (mat_add_optimised_traced pSrcA pSrcB M N strideA strideB strideY pDst).log →
        i < (M - 1) * strideY + N ∧ i < M * strideY)) ∧
    (M % 2 = 1 →
      (mat_add_optimised_traced pSrcA pSrcB M N strideA strideB strideY pDst).log =
        (mat_add_pairs_traced pSrcA pSrcB M N strideA strideB strideY pDst).log ++
          mat_add_tail_accesses pSrcA pSrcB M N strideA strideB strideY pDst ∧
      (∀ e, e ∈ (mat_add_pairs_traced pSrcA pSrcB M N strideA strideB strideY pDst).log →
        ∃ m n, m < M - 1 ∧ n < N ∧
          (e = Access.readA (u32 (m * strideA + n)) ∨
            e = Access.readB (u32 (m * strideB + n)) ∨
            e = Access.write (u32 (m * strideY + n)))) ∧
      (∀ e, e ∈ mat_add_tail_accesses pSrcA pSrcB M N strideA strideB strideY pDst →
        ∃ n, n < N ∧
          (e = Access.readA (u32 ((M - 1) * strideA + n)) ∨
            e = Access.readB (u32 ((M - 1) * strideB + n)) ∨
            e = Access.write (u32 ((M - 1) * strideY + n))))) ∧
    (mat_add_optimised_traced pSrcA pSrcB M N strideA strideB strideY pDst).st =
      mat_add_optimised pSrcA pSrcB M N strideA strideB strideY pDst := by
  have hmem := mem_optimised_log pSrcA pSrcB M N strideA strideB strideY pDst hY hW
  refine ⟨hmem, ?_, ?_, mat_add_optimised_traced_st _ _ _ _ _ _ _ _⟩
  · intro hfA hfB hfY
    have hplain : ∀ e,
        e ∈ (mat_add_optimised_traced pSrcA pSrcB M N strideA strideB strideY pDst).log →
        ∃ m n, m < M ∧ n < N ∧
          (e = Access.readA (m * strideA + n) ∨ e = Access.readB (m * strideB + n) ∨
            e = Access.write (m * strideY + n)) := by
      intro e he
      obtain ⟨m, n, hm, hn, h⟩ := hmem e he
      rw [(fit_index M N strideA m n hfA hm hn).1, (fit_index M N strideB m n hfB hm hn).1,
        (fit_index M N strideY m n hfY hm hn).1] at h
      exact ⟨m, n, hm, hn, h⟩
    refine ⟨hplain, ?_, ?_, ?_⟩
    · intro i hi
      obtain ⟨m, n, hm, hn, h⟩ := hplain _ hi
      rcases h with h | h | h
      · have hi' : i = m * strideA + n := Access.readA.inj h
        have h1 := (fit_index M N strideA m n hfA hm hn).2
        have h2 := last_row_le M N strideA (by omega) hA
        omega
      · exact Access.noConfusion h
      · exact Access.noConfusion h
    · intro i hi
      obtain ⟨m, n, hm, hn, h⟩ := hplain _ hi
      rcases h with h | h | h
      · exact Access.noConfusion h
      · have hi' : i = m * strideB + n := Access.readB.inj h
        have h1 := (fit_index M N strideB m n hfB hm hn).2
        have h2 := last_row_le M N strideB (by omega) hB
        omega
      · exact Access.noConfusion h
    · intro i hi
      obtain ⟨m, n, hm, hn, h⟩ := hplain _ hi
      rcases h with h | h | h
      · exact Access.noConfusion h
      · exact Access.noConfusion h
      · have hi' : i = m * strideY + n := Access.write.inj h
        have h1 := (fit_index M N strideY m n hfY hm hn).2
        have h2 := last_row_le M N strideY (by omega) hY
        omega
  · intro hodd
    have e : 2 * (M / 2) = M - 1 := by omega
    refine ⟨?_, ?_, ?_⟩
    · rw [mat_add_optimised_traced_log, if_pos hodd]
    · intro a ha
      have h := mem_pairs_log _ _ _ _ _ _ _ _ hY hW a ha
      rw [e] at h
      exact h
    · intro a ha
      have h := mem_tail_log _ _ _ _ _ _ _ _ hY hW a ha
      rw [e] at h
      exact h

/-- C13, at a 3 x 5 matrix with strides 7, 7 and 6: the write of `dst[16]` is in the log
and is the write of element `(2, 4)`; it lies below `(3-1)*6 + 5 = 17`. -/
theorem plp_mat_add_stride_i8s_xpulpv2_access_witness :
    (∃ m n, m < 3 ∧ n < 5 ∧
      (Access.write 16 = Access.readA (m * 7 + n) ∨ Access.write 16 = Access.readB (m * 7 + n) ∨
        Access.write 16 = Access.write (m * 6 + n))) ∧
    (16 < (3 - 1) * 6 + 5 ∧ 16 < 3 * 6) :=
  have h := (plp_mat_add_stride_i8s_xpulpv2_access (buf []) (buf []) 3 5 7 7 6 (buf [])
    (by decide) (by decide) (by decide) (by decide)).2.1 (by decide) (by decide) (by decide)
  ⟨h.1 (Access.write 16) (by decide), h.2.2.2 16 (by decide)⟩

end PulpDsp
